import Mathlib

/-!
# bbscope: scope aggregation for Bugcrowd and HackerOne

A shallow embedding of `pkg/platforms/bugcrowd/bugcrowd.go` and
`pkg/platforms/hackerone/hackerone.go`, followed by theorems about it.

Conventions of the embedding.

* Go strings are `String`; text processing goes through the list of runes
  (`String.data`).
* The network is a parameter `net : Net β`: the outcome of a request is a
  function of the requests issued so far (the trace) and of the requested URL.
  Every function that talks to the network takes the trace so far and returns
  the extended trace.  Request headers are the same for a whole run and are
  left out.
* A response body is represented by the views the code takes of it (the `gjson`
  paths it reads and the result of `json.Unmarshal`).
* `utils.Log.Fatal` ends the process.  Functions that can reach it return a
  `Run`, either `ok` or `fatal`, both carrying the trace.
* The unbounded `for` loops take a fuel argument that bounds the number of
  requests of one loop; `none` means that the fuel ran out.
* The goroutines of `GetAllProgramsScope` are interleaved by a schedule, which
  is a parameter like the network; a step of a goroutine is one access to what
  the goroutines share (the channel, the network, the slice `programs`).
-/

set_option autoImplicit false

/-! ## Strings -/

/-- Rune-wise model of `unicode.ToLower`: ASCII capitals, and the only two
non-ASCII runes whose lower case is an ASCII letter (U+212A KELVIN SIGN and
U+0130).  Every other rune is left as it is: Go maps it to a rune outside ASCII,
which neither the regular expression nor a table key can tell apart from the
original. -/
def toLowerRune (c : Char) : Char :=
  if 65 ≤ c.toNat ∧ c.toNat ≤ 90 then Char.ofNat (c.toNat + 32)
  else if c.toNat = 0x212A then 'k'
  else if c.toNat = 0x130 then 'i'
  else c

/-- Model of `strings.ToLower`. -/
def ToLower (s : String) : String := ⟨s.data.map toLowerRune⟩

/-- Model of `strings.ReplaceAll(s, "\n", "  ")`: every line feed becomes two spaces. -/
def replaceNewlines (s : String) : String :=
  ⟨s.data.flatMap fun c => if c.toNat = 10 then [' ', ' '] else [c]⟩

/-- Drops one trailing rune `c` from a list of runes, if there is one. -/
def dropTrailing (c : Char) : List Char → List Char
  | [] => []
  | [x] => if x = c then [] else [x]
  | x :: y :: t => x :: dropTrailing c (y :: t)

/-- Model of `strings.TrimSuffix(s, "/")`. -/
def TrimSuffixSlash (s : String) : String := ⟨dropTrailing '/' s.data⟩

/-! ## The regular expression

Go's `regexp` returns the leftmost match and, among the matches that start
there, the one a backtracking engine finds first (leftmost-first).  The matcher
below lists, for a pattern and an input, the inputs left over by every way of
matching a front part of the input, in the order in which a backtracking engine
tries them; the first entry is the match Go reports.
-/

/-- Regular expressions, as far as the hostname pattern needs them; all
repetitions are greedy. -/
inductive Re where
  | cls (p : Char → Bool)
  | seq (a b : Re)
  | opt (a : Re)
  | upTo (n : Nat) (a : Re)
  | plus (a : Re)

/-- Greedy `a{0,n}`, given the matcher `step` of `a`: one more `a` is tried before stopping. -/
def upToIter (step : List Char → List (List Char)) : Nat → List Char → List (List Char)
  | 0, s => [s]
  | n + 1, s => (step s).flatMap (upToIter step n) ++ [s]

/-- Greedy `a+`, given the matcher `step` of `a`.  The first argument bounds the
number of iterations; an iteration of the hostname pattern consumes input, so
the length of the input is enough. -/
def plusIter (step : List Char → List (List Char)) : Nat → List Char → List (List Char)
  | 0, _ => []
  | fuel + 1, s => (step s).flatMap fun r => plusIter step fuel r ++ [r]

/-- Backtracking matcher: the remainders of the input after each match of the
pattern at the front of the input, in priority order. -/
def Re.run : Re → List Char → List (List Char)
  | .cls _, [] => []
  | .cls p, c :: t => if p c then [t] else []
  | .seq a b, s => (a.run s).flatMap b.run
  | .opt a, s => a.run s ++ [s]
  | .upTo n a, s => upToIter a.run n s
  | .plus a, s => plusIter a.run s.length s

/-- The class `[a-z0-9]`. -/
def isAlnum (c : Char) : Bool :=
  (97 ≤ c.toNat && c.toNat ≤ 122) || (48 ≤ c.toNat && c.toNat ≤ 57)

/-- The class `[a-z0-9-]`. -/
def isAlnumHyphen (c : Char) : Bool := isAlnum c || c == '-'

/-- The literal `\.`. -/
def isDot (c : Char) : Bool := c == '.'

/-- The group `(?:[a-z0-9](?:[a-z0-9-]{0,61}[a-z0-9])?\.)`. -/
def labelDotRe : Re :=
  .seq (.seq (.cls isAlnum) (.opt (.seq (.upTo 61 (.cls isAlnumHyphen)) (.cls isAlnum))))
    (.cls isDot)

/-- The tail `[a-z0-9][a-z0-9-]{0,61}[a-z0-9]`. -/
def lastLabelRe : Re :=
  .seq (.cls isAlnum) (.seq (.upTo 61 (.cls isAlnumHyphen)) (.cls isAlnum))

/-- The pattern compiled by both resolvers:
`(?:[a-z0-9](?:[a-z0-9-]{0,61}[a-z0-9])?\.)+[a-z0-9][a-z0-9-]{0,61}[a-z0-9]`. -/
def hostRe : Re := .seq (.plus labelDotRe) lastLabelRe

/-- Scan of `r.FindAllString(s, -1)` over the runes of `s`.  The first argument
counts the runes still covered by the previous match.  At a free position the
pattern is tried; on a match the matched runes are emitted and skipped, otherwise
the scan moves on by one rune.  (The pattern never matches the empty string.) -/
def findAll : Nat → List Char → List (List Char)
  | _, [] => []
  | skip + 1, _ :: t => findAll skip t
  | 0, c :: t =>
    match (hostRe.run (c :: t)).head? with
    | some rest =>
      (c :: t).take ((c :: t).length - rest.length)
        :: findAll ((c :: t).length - rest.length - 1) t
    | none => findAll 0 t

/-- Model of `r.FindAllString(s, -1)` for the hostname pattern `r`. -/
def FindAllString (s : String) : List String := (findAll 0 s.data).map String.mk

/-! ## Data model and network -/

/-- Modelled from the spec: `scope.ScopeElement` of `pkg/scope` (not among the
sources), with the three fields the resolvers fill in. -/
structure ScopeElement where
  Target : String
  Description : String
  Category : String
deriving DecidableEq, Repr

/-- Modelled from the spec: `scope.ProgramData` of `pkg/scope` (not among the
sources): the program URL and its ordered in-scope elements. -/
structure ProgramData where
  Url : String
  InScope : List ScopeElement
deriving DecidableEq, Repr

/-- Modelled from the spec: the ways a run ends in `utils.Log.Fatal` (package
`internal/utils`, not among the sources; a fatal error aborts the whole run). -/
inductive Fatal where
  | invalidCategory
  | requestFailed
  | couldNotParse (status : Int)
  | couldNotRetrieve (lastStatus : Int)
  | fetchingFailed (status : Int)
deriving DecidableEq, Repr

/-- Modelled from the spec: `whttp.WHTTPRes` of `pkg/whttp` (not among the
sources): status code and body of a response. -/
structure WHTTPRes (β : Type) where
  StatusCode : Int
  BodyString : β
deriving DecidableEq, Repr

/-- Outcome of `whttp.SendHTTPRequest`: a transport error or a response. -/
inductive Outcome (β : Type) where
  | err
  | res (r : WHTTPRes β)
deriving DecidableEq, Repr

/-- The network: the outcome of a request for a URL, given the URLs requested so far. -/
abbrev Net (β : Type) := List String → String → Outcome β

/-- Result of a run that may end in `utils.Log.Fatal`; both cases carry the
trace of the requests issued. -/
inductive Run (α : Type) where
  | ok (trace : List String) (val : α)
  | fatal (trace : List String) (e : Fatal)
deriving DecidableEq, Repr

/-- The requests issued by a run. -/
def Run.trace {α : Type} : Run α → List String
  | .ok t _ => t
  | .fatal t _ => t

/-- State of the extraction loops: the elements appended to `pData.InScope` so
far and the keys of the `targets` map. -/
abbrev Seen := List ScopeElement × List String

/-- The loop `for _, match := range ... { if _, ok := targets[match]; !ok { append; targets[match] = struct{}{} } }`
over the matches of one field. -/
def addMatches (description category : String) (st : Seen) (ms : List String) : Seen :=
  ms.foldl
    (fun acc m => if m ∈ acc.2 then acc else (acc.1 ++ [⟨m, description, category⟩], m :: acc.2))
    st

/-- The Pattern Extractor on one text: lower the text, find all matches, keep
the first occurrence of each. -/
def extract (text : String) : List String :=
  (addMatches "" "" ([], []) (FindAllString (ToLower text))).1.map ScopeElement.Target

/-! ## Package bugcrowd -/

namespace Bugcrowd

/-- One element of `Program.Targets`. -/
structure Target where
  ID : String := ""
  Name : String := ""
  Description : String := ""
  Category : String := ""
  URI : String := ""
  IPAddress : String := ""
deriving DecidableEq, Repr

/-- The struct `Program` that `json.Unmarshal` fills. -/
structure Program where
  Targets : List Target := []
deriving DecidableEq, Repr

/-- One entry of the `groups` array of a target-groups payload, as the path
`groups.#(in_scope==true)#.targets_url` sees it. -/
structure Group where
  in_scope : Bool
  targets_url : String
deriving DecidableEq, Repr

/-- The views the package takes of a response body: the `gjson` paths
`groups`, `meta.totalPages` and `programs.#.program_url`, and the result of
`json.Unmarshal` into a `Program` (`none` when it returns an error). -/
structure Body where
  groups : List Group := []
  program : Option Program := some {}
  totalPages : Int := 0
  programUrls : List String := []
deriving DecidableEq, Repr

/-- The table of `GetCategories`. -/
def categoriesTable : List (String × List String) :=
  [("url", ["website"]),
   ("api", ["api"]),
   ("mobile", ["android", "ios"]),
   ("android", ["android"]),
   ("apple", ["ios"]),
   ("other", ["other"]),
   ("hardware", ["hardware"]),
   ("allinfra", ["website", "api", "other"])]

/-- The function `GetCategories`: a keyword that is not in the table is fatal. -/
def GetCategories (input : String) : Except Fatal (List String) :=
  match categoriesTable.lookup (ToLower input) with
  | some selectedCategory => .ok selectedCategory
  | none => .error .invalidCategory

/-- The retry loop `for { res, err = whttp.SendHTTPRequest(..); if err != nil { Fatal };
if res.StatusCode != 429 { break } else { sleep } }` on one URL. -/
def sendUntilNot429 (net : Net Body) (url : String) :
    Nat → List String → Option (Run (WHTTPRes Body))
  | 0, _ => none
  | fuel + 1, trace =>
    match net trace url with
    | .err => some (.fatal (trace ++ [url]) .requestFailed)
    | .res r =>
      if r.StatusCode ≠ 429 then some (.ok (trace ++ [url]) r)
      else sendUntilNot429 net url fuel (trace ++ [url])

/-- Body of the loop over `program.Targets` in `GetProgramScope` (lines 269-301):
the category check, then the matches of name, description and URI. -/
def scanTarget (categories : String) (st : Seen) (target : Target) : Except Fatal Seen :=
  match GetCategories categories with
  | .error e => .error e
  | .ok cats =>
    let catMatches := categories == "all" || cats.any (fun cat => cat == target.Category)
    if catMatches then
      let st1 := addMatches target.Description target.Category st
        (FindAllString (ToLower target.Name))
      let st2 := addMatches target.Description target.Category st1
        (FindAllString (ToLower target.Description))
      .ok (addMatches target.Description target.Category st2
        (FindAllString (ToLower target.URI)))
    else .ok st

/-- The loop over `program.Targets`. -/
def scanTargets (categories : String) : Seen → List Target → Except Fatal Seen
  | st, [] => .ok st
  | st, target :: rest =>
    match scanTarget categories st target with
    | .error e => .error e
    | .ok st1 => scanTargets categories st1 rest

/-- The loop of `GetProgramScope` over the target lists of the in-scope groups
(lines 229-302).  `res` is the response to the target-groups request; for each
group the target list is requested (`res2`), then `res.BodyString` is
unmarshalled and scanned with a fresh `targets` map. -/
def scopeTables (net : Net Body) (fuel : Nat) (handle categories : String)
    (res : WHTTPRes Body) : List String → List String → ProgramData → Option (Run ProgramData)
  | [], trace, pData => some (.ok trace pData)
  | scopeTableURL :: rest, trace, pData =>
    match sendUntilNot429 net ("https://bugcrowd.com" ++ scopeTableURL) fuel trace with
    | none => none
    | some (.fatal trace2 e) => some (.fatal trace2 e)
    | some (.ok trace2 res2) =>
      match res.BodyString.program with
      | none => some (.fatal trace2 (.couldNotParse res2.StatusCode))
      | some program =>
        match scanTargets categories (pData.InScope, []) program.Targets with
        | .error e => some (.fatal trace2 e)
        | .ok st =>
          scopeTables net fuel handle categories res rest trace2
            { Url := TrimSuffixSlash handle ++ "_bc", InScope := st.1 }

/-- The function `GetProgramScope(handle, categories, token)`. -/
def GetProgramScope (net : Net Body) (fuel : Nat) (trace : List String)
    (handle categories : String) : Option (Run ProgramData) :=
  match sendUntilNot429 net ("https://bugcrowd.com" ++ handle ++ "/target_groups") fuel trace with
  | none => none
  | some (.fatal trace1 e) => some (.fatal trace1 e)
  | some (.ok trace1 res) =>
    scopeTables net fuel handle categories res
      ((res.BodyString.groups.filter fun g => g.in_scope).map fun g => g.targets_url)
      trace1 { Url := "https://bugcrowd.com" ++ handle, InScope := [] }

/-- The listing URL of `GetProgramHandles` up to the page number. -/
def listEndpointURL (bbpOnly pvtOnly : Bool) : String :=
  "https://bugcrowd.com/programs.json?"
    ++ (if pvtOnly then "accepted_invite[]=true&" else "")
    ++ (if bbpOnly then "vdp[]=false&" else "")
    ++ "hidden[]=false&sort[]=invited-desc&sort[]=promoted-desc&page[]="

/-- The URL requested for a page: `listEndpointURL + strconv.Itoa(pageIndex)`. -/
def pageURL (bbpOnly pvtOnly : Bool) (pageIndex : Nat) : String :=
  listEndpointURL bbpOnly pvtOnly ++ toString pageIndex

/-- The loops of `GetProgramHandles` (lines 140-185), one request per step: a
429 repeats the request for the same page, any other response is consumed as
the page. -/
def handlesLoop (net : Net Body) (bbpOnly pvtOnly : Bool) :
    Nat → List String → Int → Nat → List String → Option (Run (List String))
  | 0, _, _, _, _ => none
  | fuel + 1, trace, totalPages, pageIndex, paths =>
    match net trace (pageURL bbpOnly pvtOnly pageIndex) with
    | .err => some (.fatal (trace ++ [pageURL bbpOnly pvtOnly pageIndex]) .requestFailed)
    | .res res =>
      if res.StatusCode ≠ 429 then
        let totalPages1 := if totalPages = 0 then res.BodyString.totalPages else totalPages
        let paths1 := paths ++ res.BodyString.programUrls
        if ((pageIndex + 1 : Nat) : Int) > totalPages1 then
          some (.ok (trace ++ [pageURL bbpOnly pvtOnly pageIndex]) paths1)
        else
          handlesLoop net bbpOnly pvtOnly fuel (trace ++ [pageURL bbpOnly pvtOnly pageIndex])
            totalPages1 (pageIndex + 1) paths1
      else
        handlesLoop net bbpOnly pvtOnly fuel (trace ++ [pageURL bbpOnly pvtOnly pageIndex])
          totalPages pageIndex paths

/-- The function `GetProgramHandles(sessionToken, bbpOnly, pvtOnly)`; `fuel`
bounds the number of requests. -/
def GetProgramHandles (net : Net Body) (fuel : Nat) (trace : List String)
    (bbpOnly pvtOnly : Bool) : Option (Run (List String)) :=
  handlesLoop net bbpOnly pvtOnly fuel trace 0 1 []

end Bugcrowd

/-! ## Package hackerone -/

namespace Hackerone

/-- The constant `RATE_LIMIT_MAX_RETRIES`. -/
def RATE_LIMIT_MAX_RETRIES : Nat := 50

/-- The constant `RATE_LIMIT_HTTP_STATUS`. -/
def RATE_LIMIT_HTTP_STATUS : Int := 429

/-- The `Attributes` of one element of `Relationships.StructuredScopes.Data`, with
the fields `getProgramScope` reads. -/
structure StructuredScope where
  AssetType : String := ""
  AssetIdentifier : String := ""
  EligibleForBounty : Bool := false
  EligibleForSubmission : Bool := false
  Instruction : String := ""
deriving DecidableEq, Repr

/-- The struct `Program` that `json.Unmarshal` fills, reduced to
`Relationships.StructuredScopes.Data`. -/
structure Program where
  Data : List StructuredScope := []
deriving DecidableEq, Repr

/-- The `attributes` of one element of `data` in a listing payload, with the
fields `getProgramHandles` reads (a missing field reads as the empty string). -/
structure ListEntry where
  handle : String := ""
  state : String := ""
  submission_state : String := ""
deriving DecidableEq, Repr

/-- The views the package takes of a response body: the result of
`json.Unmarshal` into a `Program` (`none` when it returns an error), read by
`getProgramScope`, and the `gjson` paths `data` and `links.next`, read by
`getProgramHandles`. -/
structure Body where
  program : Option Program := some {}
  data : List ListEntry := []
  next : String := ""
deriving DecidableEq, Repr

/-- The table of `getCategories`. -/
def categoriesTable : List (String × List String) :=
  [("domain", ["DOMAIN"]),
   ("wildcard", ["WILDCARD"]),
   ("url", ["URL"]),
   ("cidr", ["CIDR"]),
   ("mobile", ["GOOGLE_PLAY_APP_ID", "OTHER_APK", "APPLE_STORE_APP_ID"]),
   ("android", ["GOOGLE_PLAY_APP_ID", "OTHER_APK"]),
   ("apple", ["APPLE_STORE_APP_ID"]),
   ("other", ["OTHER"]),
   ("hardware", ["HARDWARE"]),
   ("code", ["SOURCE_CODE"]),
   ("executable", ["DOWNLOADABLE_EXECUTABLES"]),
   ("all", ["DOMAIN", "WILDCARD", "URL", "CIDR", "GOOGLE_PLAY_APP_ID", "OTHER_APK",
     "APPLE_STORE_APP_ID", "OTHER", "HARDWARE", "SOURCE_CODE", "DOWNLOADABLE_EXECUTABLES"]),
   ("allinfra", ["DOMAIN", "WILDCARD", "URL", "CIDR", "OTHER"])]

/-- The function `getCategories`: a keyword that is not in the table is fatal. -/
def getCategories (input : String) : Except Fatal (List String) :=
  match categoriesTable.lookup (ToLower input) with
  | some selectedCategory => .ok selectedCategory
  | none => .error .invalidCategory

/-- The URL `getProgramScope` requests. -/
def programURL (id : String) : String := "https://api.hackerone.com/v1/hackers/programs/" ++ id

/-- The loop `for i := 0; i < RATE_LIMIT_MAX_RETRIES; i++` of `getProgramScope`
(lines 76-100); the first argument is the number of iterations left.  A
transport error goes to the next iteration (`continue`), a response sets
`lastStatus` and ends the loop unless its status is 429.  Returns the trace,
`lastStatus` and `res`.  (After a transport error `res` is not read again before
it is reassigned or the run ends, so it is kept.) -/
def fetchLoop (net : Net Body) (url : String) :
    Nat → List String → Int → WHTTPRes Body → List String × Int × WHTTPRes Body
  | 0, trace, lastStatus, res => (trace, lastStatus, res)
  | n + 1, trace, lastStatus, res =>
    match net trace url with
    | .err => fetchLoop net url n (trace ++ [url]) lastStatus res
    | .res r =>
      if r.StatusCode ≠ RATE_LIMIT_HTTP_STATUS then (trace ++ [url], r.StatusCode, r)
      else fetchLoop net url n (trace ++ [url]) r.StatusCode r

/-- The test on `AssetType` at line 138: the types whose identifier goes
through the regular expression. -/
def isTextAsset (assetType : String) : Bool :=
  assetType == "DOMAIN" || assetType == "URL" || assetType == "OTHER" || assetType == "WILDCARD"

/-- Body of the loop over the structured scopes (lines 120-171). -/
def scanScope (bbpOnly : Bool) (categories : List String) (isDumpAll : Bool)
    (st : Seen) (e : StructuredScope) : Seen :=
  let catFound := !isDumpAll && categories.any (fun cat => cat == e.AssetType)
  if catFound || isDumpAll then
    if e.EligibleForSubmission then
      if !bbpOnly || (bbpOnly && e.EligibleForBounty) then
        if isTextAsset e.AssetType then
          let st1 := addMatches (replaceNewlines e.Instruction) "" st
            (FindAllString (ToLower e.AssetIdentifier))
          addMatches (replaceNewlines e.Instruction) "" st1
            (FindAllString (ToLower e.Instruction))
        else
          (st.1 ++ [⟨e.AssetIdentifier, replaceNewlines e.Instruction, ""⟩], st.2)
      else st
    else st
  else st

/-- The value of `pData.InScope` after the loop over the structured scopes `data`
(lines 116-171), for the resolved tag list `categories`. -/
def inScopeOf (bbpOnly : Bool) (categories : List String) (data : List StructuredScope) :
    Except Fatal (List ScopeElement) :=
  match getCategories "all" with
  | .error e => .error e
  | .ok all =>
    .ok (data.foldl (scanScope bbpOnly categories (categories.length == all.length)) ([], [])).1

/-- The function `getProgramScope(authorization, id, bbpOnly, categories)`. -/
def getProgramScope (net : Net Body) (trace : List String) (id : String) (bbpOnly : Bool)
    (categories : List String) : Run ProgramData :=
  match fetchLoop net (programURL id) RATE_LIMIT_MAX_RETRIES trace (-1) ⟨0, {}⟩ with
  | (trace1, lastStatus, res) =>
    if lastStatus ≠ 200 then .fatal trace1 (.couldNotRetrieve lastStatus)
    else
      match res.BodyString.program with
      | none => .fatal trace1 (.couldNotParse lastStatus)
      | some program =>
        match inScopeOf bbpOnly categories program.Data with
        | .error e => .fatal trace1 e
        | .ok inScope => .ok trace1 { Url := "https://hackerone.com/" ++ id, InScope := inScope }

/-- The call `getProgramScope(authorization, id, bbpOnly, getCategories(categories))`
made by the workers of `GetAllProgramsScope` (line 284): the keyword is resolved
first, then the program is fetched. -/
def resolveProgram (net : Net Body) (trace : List String) (id : String) (bbpOnly : Bool)
    (categories : String) : Run ProgramData :=
  match getCategories categories with
  | .error e => .fatal trace e
  | .ok cats => getProgramScope net trace id bbpOnly cats

end Hackerone

/-! ## The worker pool of `GetAllProgramsScope`

Both packages run the same code after the discovery of the handles: a channel
of capacity `concurrency`, `concurrency` workers that receive a handle, stop at
the empty string and otherwise append the result of the resolver to the shared
slice `programs`, and the caller, which sends every handle, closes the channel
and waits for the workers.

The goroutines are interleaved by a schedule, a list of actors: at each entry
the named goroutine takes its next step if it can, and nothing happens if it is
blocked.  A step is one access to what the goroutines share: a send, the close
or a receive on the channel, one HTTP request, the exit of the process in
`Log.Fatal`, the read of `programs`, the assignment to `programs`.  What a
goroutine computes on its own between two such accesses belongs to the step
before it.  The receive and the call of the resolver are separate steps, and a
call of the resolver is one step for each of its requests, so the requests of
concurrent calls interleave in the trace.  The statement
`programs = append(programs, ...)` is two steps, the read and the assignment,
since nothing in the code orders the workers between them.
-/

/-- The goroutines: the caller and the workers, numbered from 0. -/
inductive Actor where
  | main
  | worker (i : Nat)
deriving DecidableEq, Repr

/-- A call of a resolver between two accesses to the network: it has returned
or ended in `Log.Fatal` (`ret`), or it is about to request `url` and goes on
with the outcome (`ask`), or it is in a retry loop that never ends (`hang`,
where the fuel of the model ran out). -/
inductive Call (β : Type) where
  | ret (r : Except Fatal ProgramData)
  | ask (url : String) (next : Outcome β → Call β)
  | hang

/-- A call run from start to end with no other goroutine in between. -/
def Call.run {β : Type} (net : Net β) : Call β → List String → Option (Run ProgramData)
  | .ret (.ok pData), trace => some (.ok trace pData)
  | .ret (.error e), trace => some (.fatal trace e)
  | .ask url next, trace => Call.run net (next (net trace url)) (trace ++ [url])
  | .hang, _ => none

/-- Where a worker stands: before the receive `<-handles`; inside the call of
the resolver for the handle it received; after the read of `programs` (value
`old`) and before the assignment; after `break`. -/
inductive Worker (β : Type) where
  | receiving
  | calling (call : Call β)
  | writing (pData : ProgramData) (old : List ProgramData)
  | done

/-- State of a run of the pool: the handles the caller has still to send, the
buffer of the channel, whether the channel is closed, the workers, the shared
slice `programs`, the trace of requests, and the fatal error if one was raised. -/
structure Pool (β : Type) where
  pending : List String
  chan : List String
  closed : Bool
  workers : List (Worker β)
  programs : List ProgramData
  trace : List String
  fatal : Option Fatal

/-- The state after `make(chan string, concurrency)` and the start of the workers. -/
def Pool.start {β : Type} (handles : List String) (concurrency : Nat) (trace : List String) :
    Pool β :=
  { pending := handles, chan := [], closed := false,
    workers := List.replicate concurrency .receiving,
    programs := [], trace := trace, fatal := none }

/-- A step of the caller: send the next handle if the buffer has room
(`handles <- handle`), or close the channel when every handle has been sent. -/
def Pool.mainStep {β : Type} (cap : Nat) (s : Pool β) : Pool β :=
  match s.pending with
  | h :: rest => if s.chan.length < cap then { s with pending := rest, chan := s.chan ++ [h] } else s
  | [] => { s with closed := true }

/-- A step of worker `i`.  A receive takes the head of the buffer, or the zero
value `""` when the channel is closed and empty; the empty string ends the
worker (`break` and `processGroup.Done()` go with the receive), for any other
handle the worker enters the call `resolve h`.  Inside the call a step issues
the next request; a call that failed ends the process; a call that returned
`pData` is followed by the read of `programs` and then by the assignment of
`append(programs, pData)`, the slices being taken as values. -/
def Pool.workerStep {β : Type} (net : Net β) (resolve : String → Call β) (i : Nat)
    (s : Pool β) : Pool β :=
  match s.workers[i]? with
  | none => s
  | some .receiving =>
    match s.chan with
    | h :: rest =>
      if h = "" then { s with chan := rest, workers := s.workers.set i .done }
      else { s with chan := rest, workers := s.workers.set i (.calling (resolve h)) }
    | [] => if s.closed then { s with workers := s.workers.set i .done } else s
  | some (.calling (.ask url next)) =>
    { s with trace := s.trace ++ [url],
             workers := s.workers.set i (.calling (next (net s.trace url))) }
  | some (.calling (.ret (.error e))) => { s with fatal := some e }
  | some (.calling (.ret (.ok pData))) =>
    { s with workers := s.workers.set i (.writing pData s.programs) }
  | some (.calling .hang) => s
  | some (.writing pData old) =>
    { s with programs := old ++ [pData], workers := s.workers.set i .receiving }
  | some .done => s

/-- One entry of the schedule.  After `Log.Fatal` the process has ended and
nothing moves. -/
def Pool.step {β : Type} (net : Net β) (resolve : String → Call β) (cap : Nat)
    (a : Actor) (s : Pool β) : Pool β :=
  match s.fatal with
  | some _ => s
  | none =>
    match a with
    | .main => s.mainStep cap
    | .worker i => s.workerStep net resolve i

/-- The state after a schedule. -/
def Pool.run {β : Type} (net : Net β) (resolve : String → Call β) (cap : Nat) :
    List Actor → Pool β → Pool β
  | [], s => s
  | a :: rest, s => Pool.run net resolve cap rest (s.step net resolve cap a)

/-- Whether a worker has left its loop. -/
def Worker.isDone {β : Type} : Worker β → Bool
  | .done => true
  | _ => false

/-- What the run has come to: the fatal error; or the value of `programs` that
the caller returns once it has sent every handle, closed the channel and
`processGroup.Wait()` has seen every worker done; or nothing yet. -/
def Pool.result {β : Type} (s : Pool β) : Option (Run (List ProgramData)) :=
  match s.fatal with
  | some e => some (.fatal s.trace e)
  | none =>
    if s.pending = [] ∧ s.closed = true ∧ s.workers.all Worker.isDone = true then
      some (.ok s.trace s.programs)
    else none

namespace Hackerone

/-- The filters of `getProgramHandles` on one entry (lines 231-251). -/
def keepEntry (pvtOnly publicOnly active : Bool) (e : ListEntry) : Bool :=
  if !publicOnly then
    if !pvtOnly || (pvtOnly && e.state == "soft_launched") then
      if active then e.submission_state == "open" else true
    else false
  else
    if e.state == "public_mode" then
      if active then e.submission_state == "open" else true
    else false

/-- The loop of `getProgramHandles` (lines 208-260), one request per step: a
transport error repeats the request, a status other than 200 is fatal, a page
adds its handles and names the next URL, the empty string ending the loop. -/
def handlesLoop (net : Net Body) (pvtOnly publicOnly active : Bool) :
    Nat → List String → String → List String → Option (Run (List String))
  | 0, _, _, _ => none
  | fuel + 1, trace, currentURL, handles =>
    match net trace currentURL with
    | .err => handlesLoop net pvtOnly publicOnly active fuel (trace ++ [currentURL]) currentURL handles
    | .res res =>
      if res.StatusCode ≠ 200 then
        some (.fatal (trace ++ [currentURL]) (.fetchingFailed res.StatusCode))
      else
        let handles1 := handles ++
          (res.BodyString.data.filter (keepEntry pvtOnly publicOnly active)).map fun e => e.handle
        if res.BodyString.next = "" then some (.ok (trace ++ [currentURL]) handles1)
        else
          handlesLoop net pvtOnly publicOnly active fuel (trace ++ [currentURL])
            res.BodyString.next handles1

/-- The function `getProgramHandles(authorization, pvtOnly, publicOnly, active)`;
`fuel` bounds the number of requests. -/
def getProgramHandles (net : Net Body) (fuel : Nat) (trace : List String)
    (pvtOnly publicOnly active : Bool) : Option (Run (List String)) :=
  handlesLoop net pvtOnly publicOnly active fuel trace
    "https://api.hackerone.com/v1/hackers/programs" []

/-- The fetch loop of `getProgramScope` (lines 76-104) request by request, with
`n` attempts left; `rest` is the function after the loop. -/
def fetchCall (url : String) (rest : Int → WHTTPRes Body → Call Body) :
    Nat → Int → WHTTPRes Body → Call Body
  | 0, lastStatus, res => rest lastStatus res
  | n + 1, lastStatus, res =>
    .ask url fun o =>
      match o with
      | .err => fetchCall url rest n lastStatus res
      | .res r =>
        if r.StatusCode ≠ RATE_LIMIT_HTTP_STATUS then rest r.StatusCode r
        else fetchCall url rest n r.StatusCode r

/-- The function `getProgramScope` after the fetch loop (lines 105-175): the
check of `lastStatus`, the parse and the loop over the structured scopes. -/
def scopeOfResponse (id : String) (bbpOnly : Bool) (categories : List String)
    (lastStatus : Int) (res : WHTTPRes Body) : Except Fatal ProgramData :=
  if lastStatus ≠ 200 then .error (.couldNotRetrieve lastStatus)
  else
    match res.BodyString.program with
    | none => .error (.couldNotParse lastStatus)
    | some program =>
      match inScopeOf bbpOnly categories program.Data with
      | .error e => .error e
      | .ok inScope => .ok { Url := "https://hackerone.com/" ++ id, InScope := inScope }

/-- The function `getProgramScope` as a call of a worker. -/
def getProgramScopeCall (id : String) (bbpOnly : Bool) (categories : List String) : Call Body :=
  fetchCall (programURL id) (fun lastStatus res =>
    .ret (scopeOfResponse id bbpOnly categories lastStatus res))
    RATE_LIMIT_MAX_RETRIES (-1) ⟨0, {}⟩

/-- The call `getProgramScope(authorization, id, bbpOnly, getCategories(categories))`
of a worker (line 284): the argument `getCategories(categories)` is evaluated
first. -/
def resolveCall (id : String) (bbpOnly : Bool) (categories : String) : Call Body :=
  match getCategories categories with
  | .error e => .ret (.error e)
  | .ok cats => getProgramScopeCall id bbpOnly cats

/-- The function `GetAllProgramsScope`: the discovery of the handles, then the
pool under the given schedule, each worker calling `getProgramScope` on the
handles it receives. -/
def GetAllProgramsScope (net : Net Body) (fuel : Nat) (schedule : List Actor)
    (bbpOnly pvtOnly publicOnly : Bool) (categories : String) (active : Bool)
    (concurrency : Nat) : Option (Run (List ProgramData)) :=
  match getProgramHandles net fuel [] pvtOnly publicOnly active with
  | none => none
  | some (.fatal trace e) => some (.fatal trace e)
  | some (.ok trace programHandles) =>
    ((Pool.start programHandles concurrency trace).run net
      (fun id => resolveCall id bbpOnly categories) concurrency schedule).result

end Hackerone

namespace Bugcrowd

/-- The retry loop of `sendUntilNot429` request by request; `rest` is the
function after the loop. -/
def sendCall (url : String) (rest : WHTTPRes Body → Call Body) : Nat → Call Body
  | 0 => .hang
  | fuel + 1 =>
    .ask url fun o =>
      match o with
      | .err => .ret (.error .requestFailed)
      | .res r => if r.StatusCode ≠ 429 then rest r else sendCall url rest fuel

/-- The loop of `scopeTables` as a call of a worker. -/
def scopeTablesCall (fuel : Nat) (handle categories : String) (res : WHTTPRes Body) :
    List String → ProgramData → Call Body
  | [], pData => .ret (.ok pData)
  | scopeTableURL :: rest, pData =>
    sendCall ("https://bugcrowd.com" ++ scopeTableURL) (fun res2 =>
      match res.BodyString.program with
      | none => .ret (.error (.couldNotParse res2.StatusCode))
      | some program =>
        match scanTargets categories (pData.InScope, []) program.Targets with
        | .error e => .ret (.error e)
        | .ok st =>
          scopeTablesCall fuel handle categories res rest
            { Url := TrimSuffixSlash handle ++ "_bc", InScope := st.1 }) fuel

/-- The function `GetProgramScope(handle, categories, token)` as a call of a
worker (line 348). -/
def GetProgramScopeCall (fuel : Nat) (handle categories : String) : Call Body :=
  sendCall ("https://bugcrowd.com" ++ handle ++ "/target_groups") (fun res =>
    scopeTablesCall fuel handle categories res
      ((res.BodyString.groups.filter fun g => g.in_scope).map fun g => g.targets_url)
      { Url := "https://bugcrowd.com" ++ handle, InScope := [] }) fuel

/-- The function `GetAllProgramsScope`: the discovery of the handles, then the
pool under the given schedule, each worker calling `GetProgramScope` on the
handles it receives. -/
def GetAllProgramsScope (net : Net Body) (fuel : Nat) (schedule : List Actor)
    (bbpOnly pvtOnly : Bool) (categories : String) (concurrency : Nat) :
    Option (Run (List ProgramData)) :=
  match GetProgramHandles net fuel [] bbpOnly pvtOnly with
  | none => none
  | some (.fatal trace e) => some (.fatal trace e)
  | some (.ok trace programHandles) =>
    ((Pool.start programHandles concurrency trace).run net
      (fun handle => GetProgramScopeCall fuel handle categories) concurrency schedule).result

end Bugcrowd

/-! ## The grammar of the specification -/

/-- A label as the spec words it: 1 to 63 characters, each a lowercase letter,
a digit or a hyphen, the first and the last not a hyphen. -/
def IsLabel (l : List Char) : Prop :=
  1 ≤ l.length ∧ l.length ≤ 63 ∧ (∀ c ∈ l, c.isLower = true ∨ c.isDigit = true ∨ c = '-') ∧
    l.head? ≠ some '-' ∧ l.getLast? ≠ some '-'

/-- A domain-like token: one or more labels, each followed by a dot, then a
last label of at least `minLast` characters. -/
def IsToken (minLast : Nat) (t : List Char) : Prop :=
  ∃ labels last, labels ≠ [] ∧ (∀ l ∈ labels, IsLabel l) ∧ IsLabel last ∧ minLast ≤ last.length ∧
    t = (labels.flatMap fun l => l ++ ['.']) ++ last

/-- The token grammar of the spec: the last label has the same shape as the others. -/
def SpecToken (t : String) : Prop := IsToken 1 t.data

/-- The tokens of the pattern in the code: the last label has at least two characters. -/
def HostToken (t : String) : Prop := IsToken 2 t.data

/-- Tokens written out as text, `sep` between neighbours. -/
def joinWith (sep : List Char) : List (List Char) → List Char
  | [] => []
  | [t] => t
  | t :: u :: rest => t ++ sep ++ joinWith sep (u :: rest)

/-- The text of a list of tokens separated by `sep`. -/
def tokensAsText (sep : String) (tokens : List String) : String :=
  ⟨joinWith sep.data (tokens.map String.data)⟩

/-! ## Concrete networks used as examples -/

namespace Bugcrowd

/-- The end-to-end example of the spec: program `/acme` has one in-scope group,
whose target list holds the entry `App` with URI `https://foo.example.com/path`. -/
def exampleNet : Net Body := fun _ url =>
  if url = "https://bugcrowd.com/acme/target_groups" then
    .res ⟨200, { groups := [⟨true, "/acme/target_groups/1/targets"⟩] }⟩
  else if url = "https://bugcrowd.com/acme/target_groups/1/targets" then
    .res ⟨200, { program := some { Targets :=
      [{ Category := "website", Name := "App", URI := "https://foo.example.com/path" }] } }⟩
  else .err

/-- A target entry named `foo.example.com` of category `website`. -/
def fooTarget : Target := { Category := "website", Name := "foo.example.com" }

/-- A program with two in-scope groups; every payload (the group listing and
both target lists) carries the entry `foo.example.com`. -/
def twoGroupsNet : Net Body := fun _ url =>
  if url = "https://bugcrowd.com/acme/target_groups" then
    .res ⟨200, { program := some { Targets := [fooTarget] },
                 groups := [⟨true, "/acme/target_groups/1/targets"⟩,
                            ⟨true, "/acme/target_groups/2/targets"⟩] }⟩
  else .res ⟨200, { program := some { Targets := [fooTarget] } }⟩

/-- A program with one in-scope group; both payloads carry the entry `foo.example.com`. -/
def oneGroupNet : Net Body := fun _ url =>
  if url = "https://bugcrowd.com/acme/target_groups" then
    .res ⟨200, { program := some { Targets := [fooTarget] },
                 groups := [⟨true, "/acme/target_groups/1/targets"⟩] }⟩
  else .res ⟨200, { program := some { Targets := [fooTarget] } }⟩

/-- A listing of two pages with two programs on each. -/
def listingNet : Net Body := fun _ _ =>
  .res ⟨200, { totalPages := 2, programUrls := ["/acme", "/globex"] }⟩

end Bugcrowd

namespace Hackerone

/-- A program whose only structured scope is a CIDR entry with an empty identifier. -/
def emptyIdentifierNet : Net Body := fun _ _ =>
  .res ⟨200, { program := some { Data :=
    [{ AssetType := "CIDR", AssetIdentifier := "", EligibleForSubmission := true }] } }⟩

/-- An endpoint that answers every request with status 429. -/
def rateLimitedNet : Net Body := fun _ _ => .res ⟨429, {}⟩

/-- An endpoint whose first `k` requests end in a transport error and that
answers with status 200 from then on. -/
def errorsThenOk (k : Nat) : Net Body := fun trace _ =>
  if trace.length < k then .err else .res ⟨200, {}⟩

end Hackerone

namespace Hackerone

/-- A listing of one page with the programs `acme` and `globex`; every program
request is answered with status 200 and no structured scope. -/
def twoProgramsNet : Net Body := fun _ url =>
  if url = "https://api.hackerone.com/v1/hackers/programs" then
    .res ⟨200, { data := [{ handle := "acme" }, { handle := "globex" }] }⟩
  else .res ⟨200, {}⟩

/-- A listing of one page with two entries, the first of which has no handle. -/
def emptyHandleNet : Net Body := fun _ url =>
  if url = "https://api.hackerone.com/v1/hackers/programs" then
    .res ⟨200, { data := [{ state := "public_mode" }, { handle := "acme" }] }⟩
  else .res ⟨200, {}⟩

/-- A server that answers every request with status 200 and a program whose
structured scopes are `data`. -/
def programNet (data : List StructuredScope) : Net Body := fun _ _ =>
  .res ⟨200, { program := some { Data := data } }⟩

end Hackerone

namespace Bugcrowd

/-- A listing of one page with the programs `/acme` and `/globex`; the
target-groups request of a program is answered with no group. -/
def twoProgramsListingNet : Net Body := fun _ url =>
  if url = pageURL false false 1 then
    .res ⟨200, { totalPages := 1, programUrls := ["/acme", "/globex"] }⟩
  else .res ⟨200, {}⟩

end Bugcrowd

/-! # Theorems -/

/-! ## Character classes -/

theorem isAlnum_iff (c : Char) : isAlnum c = true ↔ (c.isLower = true ∨ c.isDigit = true) := by
  simp [isAlnum, Char.isLower, Char.isDigit, Char.toNat, UInt32.le_def, BitVec.le_def,
    UInt32.toNat]

theorem isAlnumHyphen_iff (c : Char) :
    isAlnumHyphen c = true ↔ (c.isLower = true ∨ c.isDigit = true ∨ c = '-') := by
  simp [isAlnumHyphen, isAlnum_iff, or_assoc]

theorem isAlnumHyphen_of_isAlnum {c : Char} (h : isAlnum c = true) : isAlnumHyphen c = true := by
  simp [isAlnumHyphen, h]

theorem isAlnum_ne_hyphen {c : Char} (h : isAlnum c = true) : c ≠ '-' := by
  rintro rfl
  exact absurd h (by decide)

theorem isAlnum_of_ne_hyphen {c : Char} (h : isAlnumHyphen c = true) (hc : c ≠ '-') :
    isAlnum c = true := by
  simpa [isAlnumHyphen, hc] using h

theorem isDot_iff (c : Char) : isDot c = true ↔ c = '.' := by
  simp [isDot]

theorem not_isAlnumHyphen_dot : isAlnumHyphen '.' = false := by decide

theorem toLowerRune_of_isAlnumHyphen {c : Char} (h : isAlnumHyphen c = true) :
    toLowerRune c = c := by
  have h1 : ¬ (65 ≤ c.toNat ∧ c.toNat ≤ 90) ∧ c.toNat ≠ 0x212A ∧ c.toNat ≠ 0x130 := by
    rcases Bool.or_eq_true _ _ ▸ h with h | h
    · simp only [isAlnum, Bool.or_eq_true, Bool.and_eq_true, decide_eq_true_eq] at h
      omega
    · have : c = '-' := by simpa using h
      subst this
      decide
  simp [toLowerRune, h1.1, h1.2.1, h1.2.2]

theorem toLowerRune_dot : toLowerRune '.' = '.' := by decide

theorem whitespace_facts {c : Char} (h : c.isWhitespace = true) :
    isAlnumHyphen c = false ∧ isDot c = false ∧ toLowerRune c = c := by
  simp only [Char.isWhitespace, Bool.or_eq_true, beq_iff_eq, decide_eq_true_eq] at h
  rcases h with ((rfl | rfl) | rfl) | rfl <;> decide

/-! ## What the matcher can return -/

theorem mem_run_cls {p : Char → Bool} {s x : List Char} :
    x ∈ (Re.cls p).run s ↔ ∃ c, p c = true ∧ s = c :: x := by
  cases s with
  | nil => simp [Re.run]
  | cons c t =>
    by_cases h : p c = true
    · simp only [Re.run, h, if_true, List.mem_singleton, List.cons.injEq]
      constructor
      · rintro rfl
        exact ⟨c, h, rfl, rfl⟩
      · rintro ⟨d, _, rfl, rfl⟩
        rfl
    · simp only [Re.run, h, List.cons.injEq]
      constructor
      · intro hx
        simp at hx
      · rintro ⟨d, hd, rfl, rfl⟩
        exact absurd hd h

theorem run_cls_of_false {p : Char → Bool} {s : List Char}
    (h : ∀ c ∈ s.head?, p c = false) : (Re.cls p).run s = [] := by
  cases s with
  | nil => rfl
  | cons c t => simp [Re.run, h c (by simp)]

theorem run_cls_of_true {p : Char → Bool} {c : Char} (t : List Char) (h : p c = true) :
    (Re.cls p).run (c :: t) = [t] := by
  simp [Re.run, h]

theorem mem_upToIter {p : Char → Bool} (n : Nat) :
    ∀ {s x : List Char}, x ∈ upToIter (Re.cls p).run n s →
      ∃ u, s = u ++ x ∧ u.length ≤ n ∧ ∀ c ∈ u, p c = true := by
  induction n with
  | zero =>
    intro s x h
    simp only [upToIter, List.mem_singleton] at h
    exact ⟨[], by simp [h], by simp, by simp⟩
  | succ n ih =>
    intro s x h
    simp only [upToIter, List.mem_append, List.mem_flatMap, List.mem_singleton] at h
    rcases h with ⟨y, hy, hx⟩ | rfl
    · obtain ⟨c, hc, rfl⟩ := mem_run_cls.1 hy
      obtain ⟨u, rfl, hlen, hall⟩ := ih hx
      refine ⟨c :: u, rfl, by simp only [List.length_cons]; omega, ?_⟩
      intro d hd
      rcases List.mem_cons.1 hd with rfl | hd
      · exact hc
      · exact hall d hd
    · exact ⟨[], rfl, by simp, by simp⟩

theorem getLast?_cons_snoc (c0 c1 : Char) (u : List Char) :
    (c0 :: (u ++ [c1])).getLast? = some c1 := by
  rw [← List.cons_append, List.getLast?_concat]

theorem run_seq (a b : Re) (s : List Char) : (Re.seq a b).run s = (a.run s).flatMap b.run := by
  simp [Re.run]

theorem run_plus (a : Re) (s : List Char) : (Re.plus a).run s = plusIter a.run s.length s := by
  simp [Re.run]

/-- The two shapes of a label: one alphanumeric character, or two with up to 61
characters of the wider class between them. -/
theorem isLabel_iff (l : List Char) :
    IsLabel l ↔ (∃ c, l = [c] ∧ isAlnum c = true) ∨
      (∃ c0 u c1, l = c0 :: (u ++ [c1]) ∧ isAlnum c0 = true ∧ isAlnum c1 = true ∧
        (∀ c ∈ u, isAlnumHyphen c = true) ∧ u.length ≤ 61) := by
  constructor
  · rintro ⟨h1, h2, h3, h4, h5⟩
    cases l with
    | nil => simp at h1
    | cons c0 t =>
      have hc0 : isAlnum c0 = true :=
        isAlnum_of_ne_hyphen ((isAlnumHyphen_iff c0).2 (h3 c0 (by simp))) (by simpa using h4)
      rcases List.eq_nil_or_concat t with rfl | ⟨u, c1, ht⟩
      · exact Or.inl ⟨c0, rfl, hc0⟩
      · rw [List.concat_eq_append] at ht
        subst ht
        right
        refine ⟨c0, u, c1, rfl, hc0, ?_, ?_, ?_⟩
        · refine isAlnum_of_ne_hyphen ((isAlnumHyphen_iff c1).2 (h3 c1 (by simp))) ?_
          simpa [getLast?_cons_snoc] using h5
        · intro c hc
          exact (isAlnumHyphen_iff c).2 (h3 c (by simp [hc]))
        · simp only [List.length_cons, List.length_append, List.length_nil] at h2
          omega
  · rintro (⟨c, rfl, hc⟩ | ⟨c0, u, c1, rfl, h0, h1, hu, hlen⟩)
    · refine ⟨by simp, by simp, ?_, ?_, ?_⟩
      · intro d hd
        rw [List.mem_singleton.1 hd]
        exact (isAlnumHyphen_iff c).1 (isAlnumHyphen_of_isAlnum hc)
      · simpa using isAlnum_ne_hyphen hc
      · simpa using isAlnum_ne_hyphen hc
    · refine ⟨by simp, by simp only [List.length_cons, List.length_append, List.length_nil]; omega,
        ?_, ?_, ?_⟩
      · intro d hd
        rw [← isAlnumHyphen_iff]
        simp only [List.mem_cons, List.mem_append, List.mem_singleton, List.not_mem_nil,
          or_false] at hd
        rcases hd with rfl | hd | rfl
        · exact isAlnumHyphen_of_isAlnum h0
        · exact hu d hd
        · exact isAlnumHyphen_of_isAlnum h1
      · simpa using isAlnum_ne_hyphen h0
      · simpa [getLast?_cons_snoc] using isAlnum_ne_hyphen h1

theorem isLabel_chars {l : List Char} (h : IsLabel l) : ∀ c ∈ l, isAlnumHyphen c = true :=
  fun c hc => (isAlnumHyphen_iff c).2 (h.2.2.1 c hc)

theorem labelDot_sound {s x : List Char} (h : x ∈ labelDotRe.run s) :
    ∃ l, IsLabel l ∧ s = l ++ '.' :: x := by
  simp only [labelDotRe, Re.run, List.mem_flatMap, List.mem_append, List.mem_singleton] at h
  obtain ⟨y, ⟨z, hz, hy⟩, hx⟩ := h
  obtain ⟨d, hd, rfl⟩ := mem_run_cls.1 hx
  obtain ⟨c0, hc0, rfl⟩ := mem_run_cls.1 hz
  have hdot := (isDot_iff d).1 hd
  subst hdot
  rcases hy with ⟨w, hw, hy⟩ | rfl
  · obtain ⟨c1, hc1, rfl⟩ := mem_run_cls.1 hy
    obtain ⟨u, rfl, hlen, hall⟩ := mem_upToIter 61 hw
    exact ⟨c0 :: (u ++ [c1]), (isLabel_iff _).2 (Or.inr ⟨c0, u, c1, rfl, hc0, hc1, hall, hlen⟩),
      by simp⟩
  · exact ⟨[c0], (isLabel_iff _).2 (Or.inl ⟨c0, rfl, hc0⟩), by simp⟩

theorem lastLabel_sound {s x : List Char} (h : x ∈ lastLabelRe.run s) :
    ∃ l, IsLabel l ∧ 2 ≤ l.length ∧ s = l ++ x := by
  simp only [lastLabelRe, Re.run, List.mem_flatMap] at h
  obtain ⟨z, hz, w, hw, hx⟩ := h
  obtain ⟨c0, hc0, rfl⟩ := mem_run_cls.1 hz
  obtain ⟨c1, hc1, rfl⟩ := mem_run_cls.1 hx
  obtain ⟨u, rfl, hlen, hall⟩ := mem_upToIter 61 hw
  exact ⟨c0 :: (u ++ [c1]), (isLabel_iff _).2 (Or.inr ⟨c0, u, c1, rfl, hc0, hc1, hall, hlen⟩),
    by simp, by simp⟩

theorem plusIter_sound (fuel : Nat) :
    ∀ {s x : List Char}, x ∈ plusIter labelDotRe.run fuel s →
      ∃ labels, labels ≠ [] ∧ (∀ l ∈ labels, IsLabel l) ∧
        s = (labels.flatMap fun l => l ++ ['.']) ++ x := by
  induction fuel with
  | zero =>
    intro s x h
    simp [plusIter] at h
  | succ fuel ih =>
    intro s x h
    simp only [plusIter, List.mem_flatMap, List.mem_append, List.mem_singleton] at h
    obtain ⟨r, hr, hx⟩ := h
    obtain ⟨l, hl, rfl⟩ := labelDot_sound hr
    rcases hx with hx | rfl
    · obtain ⟨labels, _, hall, rfl⟩ := ih hx
      refine ⟨l :: labels, by simp, ?_, by simp⟩
      intro k hk
      rcases List.mem_cons.1 hk with rfl | hk
      · exact hl
      · exact hall k hk
    · exact ⟨[l], by simp, by simpa using hl, by simp⟩

theorem hostRe_sound {s x : List Char} (h : x ∈ hostRe.run s) :
    ∃ t, IsToken 2 t ∧ s = t ++ x := by
  rw [hostRe, run_seq, run_plus, List.mem_flatMap] at h
  obtain ⟨r, hr, hx⟩ := h
  obtain ⟨labels, hne, hall, rfl⟩ := plusIter_sound _ hr
  obtain ⟨last, hlast, h2, rfl⟩ := lastLabel_sound hx
  exact ⟨_, ⟨labels, last, hne, hall, hlast, h2, rfl⟩, by simp⟩

theorem isToken_ne_nil {n : Nat} {t : List Char} (h : IsToken n t) : t ≠ [] := by
  obtain ⟨labels, last, hne, _, _, _, rfl⟩ := h
  cases labels with
  | nil => exact absurd rfl hne
  | cons l ls => simp

theorem findAll_sound : ∀ (s : List Char) (skip : Nat), ∀ m ∈ findAll skip s, IsToken 2 m := by
  intro s
  induction s with
  | nil =>
    intro skip m hm
    cases skip <;> simp [findAll] at hm
  | cons c t ih =>
    intro skip m hm
    cases skip with
    | succ k => exact ih k m (by simpa [findAll] using hm)
    | zero =>
      simp only [findAll] at hm
      split at hm
      · rename_i rest hrest
        obtain ⟨tok, htok, heq⟩ := hostRe_sound (List.mem_of_mem_head? hrest)
        rcases List.mem_cons.1 hm with rfl | hm
        · rw [heq]
          simpa using htok
        · exact ih _ m hm
      · exact ih 0 m hm

/-! ## What the matcher returns first -/

theorem upToIter_of_false {p : Char → Bool} {s : List Char} (n : Nat)
    (h : ∀ c ∈ s.head?, p c = false) : upToIter (Re.cls p).run n s = [s] := by
  cases n with
  | zero => rfl
  | succ n => simp [upToIter, run_cls_of_false h]

/-- Greedy repetition followed by a continuation `k`: when the input starts with
at most `n` characters of the class, then `c1`, and `k` fails right after `c1`
but succeeds at `c1`, the first result is the one `k` gives at `c1`. -/
theorem upToIter_head {p : Char → Bool} (k : List Char → List (List Char)) (r : List Char)
    (c1 : Char) (rest : List Char) (hrest : ∀ c ∈ rest.head?, p c = false)
    (hk : k rest = []) (hk1 : (k (c1 :: rest)).head? = some r) :
    ∀ (u : List Char) (n : Nat), (∀ c ∈ u, p c = true) → u.length ≤ n →
      ((upToIter (Re.cls p).run n (u ++ c1 :: rest)).flatMap k).head? = some r := by
  intro u
  induction u with
  | nil =>
    intro n _ _
    cases n with
    | zero => simpa [upToIter] using hk1
    | succ n =>
      by_cases hp : p c1 = true
      · simp [upToIter, run_cls_of_true _ hp, upToIter_of_false n hrest, hk, hk1]
      · simp [upToIter, Re.run, hp, hk1]
  | cons c u ih =>
    intro n hu hlen
    cases n with
    | zero => simp at hlen
    | succ n =>
      have hc : p c = true := hu c (by simp)
      have hrec := ih n (fun d hd => hu d (by simp [hd]))
        (by simp only [List.length_cons] at hlen; omega)
      simp only [List.cons_append, upToIter, run_cls_of_true _ hc, List.flatMap_cons,
        List.flatMap_nil, List.append_nil, List.flatMap_append, List.head?_append, hrec,
        Option.or_some]

theorem head?_flatMap_const {α β : Type} (g : α → List β) (t : α) :
    ∀ l : List α, (∀ x ∈ l, x = t) → ((t :: l).flatMap g).head? = (g t).head? := by
  intro l
  induction l with
  | nil => simp
  | cons a l ih =>
    intro h
    have ha : a = t := h a (by simp)
    subst ha
    have hrec := ih (fun x hx => h x (by simp [hx]))
    rw [List.flatMap_cons, List.head?_append, hrec]
    cases (g a).head? <;> rfl

theorem head?_flatMap_of_forall_eq {α β : Type} (g : α → List β) {t : α} {l : List α}
    (hne : l ≠ []) (h : ∀ x ∈ l, x = t) : (l.flatMap g).head? = (g t).head? := by
  cases l with
  | nil => exact absurd rfl hne
  | cons a l =>
    have ha : a = t := h a (by simp)
    subst ha
    exact head?_flatMap_const g a l (fun x hx => h x (by simp [hx]))

/-- A run of characters of a class followed by something outside the class can
be split in only one way. -/
theorem span_unique {p : Char → Bool} :
    ∀ {u v r s : List Char}, (∀ c ∈ u, p c = true) → (∀ c ∈ v, p c = true) →
      (∀ c ∈ r.head?, p c = false) → (∀ c ∈ s.head?, p c = false) →
      u ++ r = v ++ s → u = v ∧ r = s := by
  intro u
  induction u with
  | nil =>
    intro v r s _ hv hr _ h
    cases v with
    | nil => exact ⟨rfl, by simpa using h⟩
    | cons d v =>
      simp only [List.nil_append, List.cons_append] at h
      subst h
      have h1 := hr d (by simp)
      have h2 := hv d (by simp)
      rw [h1] at h2
      exact absurd h2 (by simp)
  | cons c u ih =>
    intro v r s hu hv hr hs h
    cases v with
    | nil =>
      simp only [List.nil_append, List.cons_append] at h
      subst h
      have h1 := hs c (by simp)
      have h2 := hu c (by simp)
      rw [h1] at h2
      exact absurd h2 (by simp)
    | cons d v =>
      simp only [List.cons_append, List.cons.injEq] at h
      obtain ⟨rfl, h⟩ := h
      obtain ⟨rfl, rfl⟩ := ih (fun x hx => hu x (by simp [hx])) (fun x hx => hv x (by simp [hx]))
        hr hs h
      exact ⟨rfl, rfl⟩

theorem labelDot_unique {l : List Char} (hl : IsLabel l) {t x : List Char}
    (h : x ∈ labelDotRe.run (l ++ '.' :: t)) : x = t := by
  obtain ⟨k, hk, heq⟩ := labelDot_sound h
  have := span_unique (isLabel_chars hl) (isLabel_chars hk)
    (r := '.' :: t) (s := '.' :: x) (by simp [not_isAlnumHyphen_dot])
    (by simp [not_isAlnumHyphen_dot]) heq
  simpa using this.2.symm

theorem labelDot_head {l : List Char} (hl : IsLabel l) (t : List Char) :
    (labelDotRe.run (l ++ '.' :: t)).head? = some t := by
  have hdotA : isAlnum '.' = false := by decide
  have hdot : isDot '.' = true := by decide
  rcases (isLabel_iff l).1 hl with ⟨c, rfl, hc⟩ | ⟨c0, u, c1, rfl, h0, h1, hu, hlen⟩
  · simp [labelDotRe, Re.run, hc, hdotA, hdot, upToIter, not_isAlnumHyphen_dot]
  · have key := upToIter_head (p := isAlnumHyphen)
      (fun y => ((Re.cls isAlnum).run y).flatMap (Re.cls isDot).run) t c1 ('.' :: t)
      (by simp [not_isAlnumHyphen_dot]) (by simp [Re.run, hdotA])
      (by simp [Re.run, h1, hdot]) u 61 hu hlen
    simp only [labelDotRe, run_seq, List.cons_append, List.append_assoc, List.singleton_append,
      List.nil_append, run_cls_of_true _ h0, List.flatMap_cons, List.flatMap_nil, List.append_nil]
    simp only [Re.run, List.flatMap_append, List.flatMap_assoc, List.head?_append] at key ⊢
    rw [key]
    rfl

theorem lastLabel_head {l : List Char} (hl : IsLabel l) (h2 : 2 ≤ l.length) (rest : List Char)
    (hrest : ∀ c ∈ rest.head?, isAlnumHyphen c = false ∧ isDot c = false) :
    (lastLabelRe.run (l ++ rest)).head? = some rest := by
  rcases (isLabel_iff l).1 hl with ⟨c, rfl, _⟩ | ⟨c0, u, c1, rfl, h0, h1, hu, hlen⟩
  · simp at h2
  · have hA : ∀ c ∈ rest.head?, isAlnum c = false := by
      intro c hc
      have := (hrest c hc).1
      simp only [isAlnumHyphen, Bool.or_eq_false_iff] at this
      exact this.1
    have key := upToIter_head (p := isAlnumHyphen) (Re.cls isAlnum).run rest c1 rest
      (fun c hc => (hrest c hc).1) (run_cls_of_false hA) (by simp [Re.run, h1]) u 61 hu hlen
    simp only [lastLabelRe, run_seq, List.cons_append, List.append_assoc, List.singleton_append,
      List.nil_append, run_cls_of_true _ h0, List.flatMap_cons, List.flatMap_nil, List.append_nil]
    simpa only [Re.run] using key

theorem labelDot_of_last {l : List Char} (hl : IsLabel l) (rest : List Char)
    (hrest : ∀ c ∈ rest.head?, isAlnumHyphen c = false ∧ isDot c = false) :
    labelDotRe.run (l ++ rest) = [] := by
  rw [List.eq_nil_iff_forall_not_mem]
  intro x hx
  obtain ⟨k, hk, heq⟩ := labelDot_sound hx
  have := span_unique (isLabel_chars hl) (isLabel_chars hk)
    (r := rest) (s := '.' :: x) (fun c hc => (hrest c hc).1)
    (by simp [not_isAlnumHyphen_dot]) heq
  have hd := (hrest '.' (by simp [this.2])).2
  exact absurd hd (by decide)

theorem plusIter_of_nil {step : List Char → List (List Char)} {s : List Char}
    (h : step s = []) (fuel : Nat) : plusIter step fuel s = [] := by
  cases fuel with
  | zero => rfl
  | succ n => simp [plusIter, h]

theorem plusIter_head {last rest : List Char} (hlast : IsLabel last) (h2 : 2 ≤ last.length)
    (hrest : ∀ c ∈ rest.head?, isAlnumHyphen c = false ∧ isDot c = false) :
    ∀ (labels : List (List Char)) (fuel : Nat), labels ≠ [] → (∀ l ∈ labels, IsLabel l) →
      labels.length ≤ fuel →
      ((plusIter labelDotRe.run fuel
        ((labels.flatMap fun l => l ++ ['.']) ++ (last ++ rest))).flatMap lastLabelRe.run).head?
        = some rest := by
  intro labels
  induction labels with
  | nil => intro _ h; exact absurd rfl h
  | cons l ls ih =>
    intro fuel _ hall hlen
    cases fuel with
    | zero => simp at hlen
    | succ fuel =>
      have hl : IsLabel l := hall l (by simp)
      have hs : ((l :: ls).flatMap fun l => l ++ ['.']) ++ (last ++ rest)
          = l ++ '.' :: ((ls.flatMap fun l => l ++ ['.']) ++ (last ++ rest)) := by simp
      rw [hs, plusIter, List.flatMap_assoc]
      rw [head?_flatMap_of_forall_eq _ (t := (ls.flatMap fun l => l ++ ['.']) ++ (last ++ rest))
        (by
          intro hnil
          have := labelDot_head hl ((ls.flatMap fun l => l ++ ['.']) ++ (last ++ rest))
          rw [hnil] at this
          simp at this)
        (fun x hx => labelDot_unique hl hx)]
      rw [List.flatMap_append, List.head?_append]
      cases ls with
      | nil =>
        simp only [List.flatMap_nil, List.nil_append]
        rw [plusIter_of_nil (labelDot_of_last hlast rest hrest)]
        simpa using lastLabel_head hlast h2 rest hrest
      | cons k ks =>
        rw [ih fuel (by simp) (fun x hx => hall x (by simp [hx]))
          (by simp only [List.length_cons] at hlen ⊢; omega)]
        rfl

theorem length_le_flatMap_dot (labels : List (List Char)) :
    labels.length ≤ (labels.flatMap fun l => l ++ ['.']).length := by
  induction labels with
  | nil => simp
  | cons l ls ih =>
    simp only [List.flatMap_cons, List.length_append, List.length_cons, List.length_nil]
    omega

/-- At the front of a token of the pattern that is followed by nothing or by a
character that is neither of the class `[a-z0-9-]` nor a dot, the first match
is the whole token. -/
theorem hostRe_head {t : List Char} (ht : IsToken 2 t) (rest : List Char)
    (hrest : ∀ c ∈ rest.head?, isAlnumHyphen c = false ∧ isDot c = false) :
    (hostRe.run (t ++ rest)).head? = some rest := by
  obtain ⟨labels, last, hne, hall, hlast, h2, rfl⟩ := ht
  rw [hostRe, run_seq, run_plus, List.append_assoc]
  refine plusIter_head hlast h2 hrest labels _ hne hall ?_
  have := length_le_flatMap_dot labels
  simp only [List.length_append]
  omega

/-! ## The scan and the extractor -/

theorem findAll_skip (u v : List Char) : findAll u.length (u ++ v) = findAll 0 v := by
  induction u with
  | nil => rfl
  | cons c u ih => simpa [findAll] using ih

theorem findAll_token {t : List Char} (ht : IsToken 2 t) (rest : List Char)
    (hrest : ∀ c ∈ rest.head?, isAlnumHyphen c = false ∧ isDot c = false) :
    findAll 0 (t ++ rest) = t :: findAll 0 rest := by
  have hhead := hostRe_head ht rest hrest
  cases t with
  | nil => exact absurd rfl (isToken_ne_nil ht)
  | cons c u =>
    rw [List.cons_append] at hhead ⊢
    rw [findAll, hhead]
    have h1 : (c :: (u ++ rest)).length - rest.length = u.length + 1 := by
      simp only [List.length_cons, List.length_append]
      omega
    simp only [h1, Nat.add_sub_cancel, List.take_succ_cons, List.take_left', findAll_skip]

theorem hostRe_of_not_isAlnum {c : Char} (hc : isAlnum c = false) (s : List Char) :
    hostRe.run (c :: s) = [] := by
  have : labelDotRe.run (c :: s) = [] := by simp [labelDotRe, Re.run, hc]
  rw [hostRe, run_seq, run_plus, plusIter_of_nil this]
  rfl

theorem findAll_seps (sep : List Char) (hsep : ∀ c ∈ sep, c.isWhitespace = true)
    (s : List Char) : findAll 0 (sep ++ s) = findAll 0 s := by
  induction sep with
  | nil => rfl
  | cons c sep ih =>
    have hc : isAlnum c = false := by
      have := (whitespace_facts (hsep c (by simp))).1
      simp only [isAlnumHyphen, Bool.or_eq_false_iff] at this
      exact this.1
    rw [List.cons_append, findAll, hostRe_of_not_isAlnum hc]
    exact ih (fun d hd => hsep d (by simp [hd]))

theorem findAll_joinWith {sep : List Char} (hne : sep ≠ [])
    (hsep : ∀ c ∈ sep, c.isWhitespace = true) :
    ∀ toks : List (List Char), (∀ t ∈ toks, IsToken 2 t) → findAll 0 (joinWith sep toks) = toks
  | [], _ => rfl
  | [t], h => by
    have := findAll_token (h t (by simp)) [] (by simp)
    simpa [joinWith, findAll] using this
  | t :: u :: rest, h => by
    have hb : ∀ c ∈ (sep ++ joinWith sep (u :: rest)).head?,
        isAlnumHyphen c = false ∧ isDot c = false := by
      cases sep with
      | nil => exact absurd rfl hne
      | cons d sep =>
        intro c hc
        simp only [List.cons_append, List.head?_cons, Option.mem_def, Option.some.injEq] at hc
        subst hc
        have := whitespace_facts (hsep d (by simp))
        exact ⟨this.1, this.2.1⟩
    rw [joinWith, List.append_assoc, findAll_token (h t (by simp)) _ hb, findAll_seps sep hsep,
      findAll_joinWith hne hsep (u :: rest) (fun x hx => h x (by simp [hx]))]

theorem isToken_chars {n : Nat} {t : List Char} (ht : IsToken n t) :
    ∀ c ∈ t, isAlnumHyphen c = true ∨ c = '.' := by
  obtain ⟨labels, last, _, hall, hlast, _, rfl⟩ := ht
  intro c hc
  simp only [List.mem_append, List.mem_flatMap, List.mem_singleton] at hc
  rcases hc with ⟨l, hl, hc | hc⟩ | hc
  · exact Or.inl (isLabel_chars (hall l hl) c hc)
  · exact Or.inr hc
  · exact Or.inl (isLabel_chars hlast c hc)

theorem mem_joinWith {sep : List Char} {c : Char} :
    ∀ {toks : List (List Char)}, c ∈ joinWith sep toks → c ∈ sep ∨ ∃ t ∈ toks, c ∈ t
  | [], h => by simp [joinWith] at h
  | [t], h => Or.inr ⟨t, by simp, by simpa [joinWith] using h⟩
  | t :: u :: rest, h => by
    simp only [joinWith, List.mem_append] at h
    rcases h with (h | h) | h
    · exact Or.inr ⟨t, by simp, h⟩
    · exact Or.inl h
    · rcases mem_joinWith h with h | ⟨x, hx, hc⟩
      · exact Or.inl h
      · exact Or.inr ⟨x, by simp [hx], hc⟩

theorem map_toLowerRune_joinWith {sep : List Char} (hsep : ∀ c ∈ sep, c.isWhitespace = true)
    {toks : List (List Char)} (h : ∀ t ∈ toks, IsToken 2 t) :
    (joinWith sep toks).map toLowerRune = joinWith sep toks := by
  have key : (joinWith sep toks).map toLowerRune = (joinWith sep toks).map id := by
    refine List.map_congr_left ?_
    intro c hc
    rcases mem_joinWith hc with hc | ⟨t, ht, hc⟩
    · exact (whitespace_facts (hsep c hc)).2.2
    · rcases isToken_chars (h t ht) c hc with hc | rfl
      · exact toLowerRune_of_isAlnumHyphen hc
      · exact toLowerRune_dot
  simpa using key

/-- Matches that are pairwise different and not yet in the map are all appended, in order. -/
theorem addMatches_fresh (d cat : String) :
    ∀ (ms : List String) (st : Seen), ms.Nodup → (∀ m ∈ ms, m ∉ st.2) →
      (addMatches d cat st ms).1 = st.1 ++ ms.map (fun m => ⟨m, d, cat⟩) := by
  intro ms
  induction ms with
  | nil => intro st _ _; simp [addMatches]
  | cons m ms ih =>
    intro st hnd hfresh
    have hm : m ∉ st.2 := hfresh m (by simp)
    have hnd' := List.nodup_cons.1 hnd
    have := ih (st.1 ++ [⟨m, d, cat⟩], m :: st.2) hnd'.2 (by
      intro x hx
      simp only [List.mem_cons, not_or]
      exact ⟨fun h => hnd'.1 (h ▸ hx), hfresh x (by simp [hx])⟩)
    simp only [addMatches, List.foldl_cons, hm, if_false] at this ⊢
    simpa using this

/-- Every element after the loop was there before or carries one of the matches. -/
theorem mem_addMatches (d cat : String) :
    ∀ (ms : List String) (st : Seen), ∀ e ∈ (addMatches d cat st ms).1,
      e ∈ st.1 ∨ e.Target ∈ ms := by
  intro ms
  induction ms with
  | nil => intro st e he; exact Or.inl (by simpa [addMatches] using he)
  | cons m ms ih =>
    intro st e he
    simp only [addMatches, List.foldl_cons] at he
    by_cases hm : m ∈ st.2
    · simp only [hm, if_true] at he
      rcases ih st e he with h | h
      · exact Or.inl h
      · exact Or.inr (by simp [h])
    · simp only [hm, if_false] at he
      rcases ih _ e he with h | h
      · simp only [List.mem_append, List.mem_singleton] at h
        rcases h with h | rfl
        · exact Or.inl h
        · exact Or.inr (by simp)
      · exact Or.inr (by simp [h])

/-- The loop keeps targets pairwise different as long as the map holds every
target appended so far. -/
theorem addMatches_nodup (d cat : String) :
    ∀ (ms : List String) (st : Seen), (st.1.map ScopeElement.Target).Nodup →
      (∀ e ∈ st.1, e.Target ∈ st.2) →
      ((addMatches d cat st ms).1.map ScopeElement.Target).Nodup ∧
        ∀ e ∈ (addMatches d cat st ms).1, e.Target ∈ (addMatches d cat st ms).2 := by
  intro ms
  induction ms with
  | nil => intro st h1 h2; exact ⟨by simpa [addMatches] using h1, by simpa [addMatches] using h2⟩
  | cons m ms ih =>
    intro st h1 h2
    simp only [addMatches, List.foldl_cons]
    by_cases hm : m ∈ st.2
    · simp only [hm, if_true]
      exact ih st h1 h2
    · simp only [hm, if_false]
      refine ih _ ?_ ?_
      · simp only [List.map_append, List.map_cons, List.map_nil]
        refine List.Nodup.append h1 (by simp) ?_
        intro x hx hx'
        simp only [List.mem_singleton] at hx'
        subst hx'
        obtain ⟨e, he, rfl⟩ := List.mem_map.1 hx
        exact hm (h2 e he)
      · intro e he
        simp only [List.mem_append, List.mem_singleton] at he
        rcases he with he | rfl
        · exact List.mem_cons_of_mem _ (h2 e he)
        · simp

theorem mem_FindAllString {s tok : String} (h : tok ∈ FindAllString s) : HostToken tok := by
  obtain ⟨m, hm, rfl⟩ := List.mem_map.1 h
  exact findAll_sound _ _ m hm

theorem extract_nodup (text : String) : (extract text).Nodup :=
  (addMatches_nodup "" "" _ ([], []) (by simp) (by simp)).1

theorem mem_extract {text tok : String} (h : tok ∈ extract text) : HostToken tok := by
  obtain ⟨e, he, rfl⟩ := List.mem_map.1 h
  rcases mem_addMatches "" "" _ _ e he with h | h
  · simp at h
  · exact mem_FindAllString h

theorem map_mk_data (l : List String) : (l.map String.data).map String.mk = l := by
  induction l with
  | nil => rfl
  | cons a l ih => rw [List.map_cons, List.map_cons, ih]

theorem map_target_mk (d cat : String) (l : List String) :
    (l.map fun m => (⟨m, d, cat⟩ : ScopeElement)).map ScopeElement.Target = l := by
  induction l with
  | nil => rfl
  | cons a l ih => rw [List.map_cons, List.map_cons, ih]

theorem extract_tokensAsText (sep : String) (hne : sep ≠ "")
    (hsep : ∀ c ∈ sep.data, c.isWhitespace = true) (tokens : List String) (hnd : tokens.Nodup)
    (htok : ∀ t ∈ tokens, HostToken t) : extract (tokensAsText sep tokens) = tokens := by
  have hall : ∀ t ∈ tokens.map String.data, IsToken 2 t := by
    intro t ht
    obtain ⟨s, hs, rfl⟩ := List.mem_map.1 ht
    exact htok s hs
  have hne' : sep.data ≠ [] := fun h => hne (String.ext h)
  have hfind : FindAllString (ToLower (tokensAsText sep tokens)) = tokens := by
    simp only [FindAllString, ToLower, tokensAsText, map_toLowerRune_joinWith hsep hall,
      findAll_joinWith hne' hsep _ hall]
    exact map_mk_data tokens
  rw [extract, hfind, addMatches_fresh "" "" tokens ([], []) hnd (by simp)]
  simp only [List.nil_append]
  exact map_target_mk "" "" tokens

/-! ## The resolvers -/

theorem hostToken_ne_empty {tok : String} (h : HostToken tok) : tok ≠ "" := by
  intro he
  exact isToken_ne_nil h (by rw [he])

theorem addMatches_target_ne (d cat : String) (s : String) (st : Seen)
    (h : ∀ e ∈ st.1, e.Target ≠ "") :
    ∀ e ∈ (addMatches d cat st (FindAllString s)).1, e.Target ≠ "" := by
  intro e he
  rcases mem_addMatches d cat _ st e he with h1 | h1
  · exact h e h1
  · exact hostToken_ne_empty (mem_FindAllString h1)

namespace Bugcrowd

theorem scanTarget_target_ne {categories : String} {st st1 : Seen} {target : Target}
    (hok : scanTarget categories st target = .ok st1) (h : ∀ e ∈ st.1, e.Target ≠ "") :
    ∀ e ∈ st1.1, e.Target ≠ "" := by
  unfold scanTarget at hok
  split at hok
  · simp at hok
  · dsimp only at hok
    split at hok
    · injection hok with hok
      subst hok
      exact addMatches_target_ne _ _ _ _
        (addMatches_target_ne _ _ _ _ (addMatches_target_ne _ _ _ _ h))
    · injection hok with hok
      subst hok
      exact h

theorem scanTargets_target_ne {categories : String} :
    ∀ (targets : List Target) {st st1 : Seen}, scanTargets categories st targets = .ok st1 →
      (∀ e ∈ st.1, e.Target ≠ "") → ∀ e ∈ st1.1, e.Target ≠ "" := by
  intro targets
  induction targets with
  | nil =>
    intro st st1 hok h
    simp only [scanTargets] at hok
    injection hok with hok
    subst hok
    exact h
  | cons t ts ih =>
    intro st st1 hok h
    simp only [scanTargets] at hok
    split at hok
    · simp at hok
    · rename_i st2 h2
      exact ih hok (scanTarget_target_ne h2 h)

theorem scopeTables_target_ne {net : Net Body} {fuel : Nat} {handle categories : String}
    {res : WHTTPRes Body} :
    ∀ (urls : List String) {trace tr : List String} {pData pd : ProgramData},
      scopeTables net fuel handle categories res urls trace pData = some (.ok tr pd) →
      (∀ e ∈ pData.InScope, e.Target ≠ "") → ∀ e ∈ pd.InScope, e.Target ≠ "" := by
  intro urls
  induction urls with
  | nil =>
    intro trace tr pData pd hok h
    simp only [scopeTables, Option.some.injEq, Run.ok.injEq] at hok
    rw [← hok.2]
    exact h
  | cons u us ih =>
    intro trace tr pData pd hok h
    simp only [scopeTables] at hok
    split at hok
    · simp at hok
    · simp at hok
    · split at hok
      · simp at hok
      · split at hok
        · simp at hok
        · rename_i st hst
          exact ih hok (scanTargets_target_ne _ hst h)

theorem GetProgramScope_target_ne {net : Net Body} {fuel : Nat} {trace tr : List String}
    {handle categories : String} {pd : ProgramData}
    (hok : GetProgramScope net fuel trace handle categories = some (.ok tr pd)) :
    ∀ e ∈ pd.InScope, e.Target ≠ "" := by
  unfold GetProgramScope at hok
  split at hok
  · simp at hok
  · simp at hok
  · exact scopeTables_target_ne _ hok (by simp)

end Bugcrowd

namespace Hackerone

theorem getCategories_all :
    getCategories "all" = .ok ["DOMAIN", "WILDCARD", "URL", "CIDR", "GOOGLE_PLAY_APP_ID",
      "OTHER_APK", "APPLE_STORE_APP_ID", "OTHER", "HARDWARE", "SOURCE_CODE",
      "DOWNLOADABLE_EXECUTABLES"] := by rfl

theorem lookup_of_getCategories {keyword : String} {cats : List String}
    (hk : getCategories keyword = .ok cats) :
    categoriesTable.lookup (ToLower keyword) = some cats := by
  unfold getCategories at hk
  split at hk
  · rename_i h
    injection hk with hk
    rw [h, hk]
  · simp at hk

/-- Only the keyword that reads `all` in lower case resolves to eleven tags. -/
theorem length_eq_eleven_iff {keyword : String} {cats : List String}
    (hk : getCategories keyword = .ok cats) : cats.length = 11 ↔ ToLower keyword = "all" := by
  have h := lookup_of_getCategories hk
  generalize ToLower keyword = k at h ⊢
  simp only [categoriesTable, List.lookup] at h
  repeat' split at h
  all_goals first
    | (simp at h; done)
    | (simp only [Option.some.injEq] at h; subst h; simp_all)

theorem fetchLoop_exhaust (net : Net Body) (url : String) :
    ∀ (n : Nat) (trace : List String) (last : Int) (res : WHTTPRes Body),
      (∀ j < n, net (trace ++ List.replicate j url) url = .err ∨
        ∃ r, net (trace ++ List.replicate j url) url = .res r ∧ r.StatusCode = 429) →
      (fetchLoop net url n trace last res).1 = trace ++ List.replicate n url ∧
        ((fetchLoop net url n trace last res).2.1 = last ∨
          (fetchLoop net url n trace last res).2.1 = 429) := by
  intro n
  induction n with
  | zero => intro trace last res _; simp [fetchLoop]
  | succ n ih =>
    intro trace last res h
    have hshift : ∀ j < n, net ((trace ++ [url]) ++ List.replicate j url) url = .err ∨
        ∃ r, net ((trace ++ [url]) ++ List.replicate j url) url = .res r ∧ r.StatusCode = 429 := by
      intro j hj
      have := h (j + 1) (by omega)
      simpa [List.replicate_succ] using this
    have h0 := h 0 (by omega)
    simp only [List.replicate_zero, List.append_nil] at h0
    rcases h0 with h0 | ⟨r, h0, hr⟩
    · have := ih (trace ++ [url]) last res hshift
      simpa [fetchLoop, h0, List.replicate_succ] using this
    · have := ih (trace ++ [url]) r.StatusCode r hshift
      simp only [fetchLoop, h0, hr, RATE_LIMIT_HTTP_STATUS, ne_eq, not_true_eq_false, if_false]
      rw [hr] at this
      refine ⟨by simpa [List.replicate_succ] using this.1, Or.inr ?_⟩
      rcases this.2 with h2 | h2 <;> exact h2

theorem fetchLoop_break (net : Net Body) (url : String) :
    ∀ (n k : Nat) (trace : List String) (last : Int) (res r : WHTTPRes Body), k < n →
      (∀ j < k, net (trace ++ List.replicate j url) url = .err ∨
        ∃ r, net (trace ++ List.replicate j url) url = .res r ∧ r.StatusCode = 429) →
      net (trace ++ List.replicate k url) url = .res r → r.StatusCode ≠ 429 →
      fetchLoop net url n trace last res = (trace ++ List.replicate (k + 1) url, r.StatusCode, r) := by
  intro n
  induction n with
  | zero => intro k _ _ _ _ hk; omega
  | succ n ih =>
    intro k trace last res r hk h hr hne
    cases k with
    | zero =>
      simp only [List.replicate_zero, List.append_nil] at hr
      simp [fetchLoop, hr, RATE_LIMIT_HTTP_STATUS, hne]
    | succ k =>
      have hshift : ∀ j < k, net ((trace ++ [url]) ++ List.replicate j url) url = .err ∨
          ∃ r, net ((trace ++ [url]) ++ List.replicate j url) url = .res r ∧
            r.StatusCode = 429 := by
        intro j hj
        have := h (j + 1) (by omega)
        simpa [List.replicate_succ] using this
      have hr' : net ((trace ++ [url]) ++ List.replicate k url) url = .res r := by
        simpa [List.replicate_succ] using hr
      have h0 := h 0 (by omega)
      simp only [List.replicate_zero, List.append_nil] at h0
      rcases h0 with h0 | ⟨r0, h0, hr0⟩
      · have := ih k (trace ++ [url]) last res r (by omega) hshift hr' hne
        simpa [fetchLoop, h0, List.replicate_succ] using this
      · have := ih k (trace ++ [url]) r0.StatusCode r0 r (by omega) hshift hr' hne
        simpa [fetchLoop, h0, hr0, RATE_LIMIT_HTTP_STATUS, List.replicate_succ] using this

theorem fetchLoop_trace (net : Net Body) (url : String) :
    ∀ (n : Nat) (trace : List String) (last : Int) (res : WHTTPRes Body),
      ∃ m, m ≤ n ∧ (fetchLoop net url n trace last res).1 = trace ++ List.replicate m url := by
  intro n
  induction n with
  | zero => intro trace last res; exact ⟨0, by simp, by simp [fetchLoop]⟩
  | succ n ih =>
    intro trace last res
    simp only [fetchLoop]
    split
    · obtain ⟨m, hm, h⟩ := ih (trace ++ [url]) last res
      exact ⟨m + 1, by omega, by simpa [List.replicate_succ] using h⟩
    · rename_i r _
      split
      · exact ⟨1, by omega, by simp⟩
      · obtain ⟨m, hm, h⟩ := ih (trace ++ [url]) r.StatusCode r
        exact ⟨m + 1, by omega, by simpa [List.replicate_succ] using h⟩

theorem fetchLoop_res (net : Net Body) (url : String) :
    ∀ (n : Nat) (trace : List String) (last : Int) (res : WHTTPRes Body), last ≠ 200 →
      (fetchLoop net url n trace last res).2.1 = 200 →
      ∃ t, net t url = .res (fetchLoop net url n trace last res).2.2 := by
  intro n
  induction n with
  | zero => intro trace last res hl h; exact absurd (by simpa [fetchLoop] using h) hl
  | succ n ih =>
    intro trace last res hl h
    simp only [fetchLoop] at h ⊢
    split
    · rename_i h0
      rw [h0] at h
      exact ih _ _ _ hl h
    · rename_i r h0
      rw [h0] at h
      simp only at h ⊢
      split
      · exact ⟨trace, h0⟩
      · rename_i h429
        rw [if_neg h429] at h
        refine ih _ _ _ ?_ h
        simp only [RATE_LIMIT_HTTP_STATUS, ne_eq, not_not] at h429
        rw [h429]
        decide

theorem getProgramScope_ok {net : Net Body} {trace tr : List String} {id : String}
    {bbpOnly : Bool} {categories : List String} {pd : ProgramData}
    (h : getProgramScope net trace id bbpOnly categories = .ok tr pd) :
    ∃ t r p, net t (programURL id) = .res r ∧ r.BodyString.program = some p ∧
      inScopeOf bbpOnly categories p.Data = .ok pd.InScope := by
  unfold getProgramScope at h
  split at h
  rename_i trace1 lastStatus res hloop
  split at h
  · simp at h
  · rename_i h200
    simp only [ne_eq, not_not] at h200
    split at h
    · simp at h
    · rename_i p hp
      split at h
      · simp at h
      · rename_i inScope hin
        simp only [Run.ok.injEq] at h
        have hres := fetchLoop_res net (programURL id) RATE_LIMIT_MAX_RETRIES trace (-1) ⟨0, {}⟩
          (by decide) (by rw [hloop]; exact h200)
        obtain ⟨t, ht⟩ := hres
        rw [hloop] at ht
        refine ⟨t, res, p, ht, hp, ?_⟩
        rw [← h.2]
        exact hin

theorem scanScope_of_not_gate {bbpOnly : Bool} {categories : List String} {isDumpAll : Bool}
    {e : StructuredScope} (st : Seen)
    (h : ¬ ((isDumpAll = true ∨ e.AssetType ∈ categories) ∧ e.EligibleForSubmission = true ∧
      (bbpOnly = true → e.EligibleForBounty = true))) :
    scanScope bbpOnly categories isDumpAll st e = st := by
  unfold scanScope
  by_cases h1 : (!isDumpAll && categories.any fun cat => cat == e.AssetType) || isDumpAll
  · by_cases h2 : e.EligibleForSubmission = true
    · by_cases h3 : (!bbpOnly || (bbpOnly && e.EligibleForBounty)) = true
      · exfalso
        apply h
        refine ⟨?_, h2, ?_⟩
        · cases isDumpAll
          · right
            simpa using h1
          · left; rfl
        · intro hb
          simpa [hb] using h3
      · simp [h1, h2, h3]
    · simp [h1, h2]
  · simp [h1]

theorem scanScope_of_raw {bbpOnly : Bool} {categories : List String} {isDumpAll : Bool}
    {e : StructuredScope} (st : Seen)
    (h1 : isDumpAll = true ∨ e.AssetType ∈ categories) (h2 : e.EligibleForSubmission = true)
    (h3 : bbpOnly = true → e.EligibleForBounty = true) (h4 : isTextAsset e.AssetType = false) :
    scanScope bbpOnly categories isDumpAll st e
      = (st.1 ++ [⟨e.AssetIdentifier, replaceNewlines e.Instruction, ""⟩], st.2) := by
  have g1 : ((!isDumpAll && categories.any fun cat => cat == e.AssetType) || isDumpAll) = true := by
    cases isDumpAll
    · rcases h1 with h1 | h1
      · simp at h1
      · simpa using h1
    · rfl
  have g3 : (!bbpOnly || (bbpOnly && e.EligibleForBounty)) = true := by
    cases bbpOnly
    · rfl
    · simpa using h3 rfl
  simp [scanScope, g1, h2, g3, h4]

theorem mem_scanScope {bbpOnly : Bool} {categories : List String} {isDumpAll : Bool}
    {e : StructuredScope} {st : Seen} {x : ScopeElement}
    (hx : x ∈ (scanScope bbpOnly categories isDumpAll st e).1) :
    x ∈ st.1 ∨ x.Target ≠ "" ∨ (isTextAsset e.AssetType = false ∧ e.AssetIdentifier = "") := by
  unfold scanScope at hx
  dsimp only at hx
  split at hx
  · split at hx
    · split at hx
      · split at hx
        · rcases mem_addMatches _ _ _ _ x hx with h1 | h1
          · rcases mem_addMatches _ _ _ _ x h1 with h2 | h2
            · exact Or.inl h2
            · exact Or.inr (Or.inl (hostToken_ne_empty (mem_FindAllString h2)))
          · exact Or.inr (Or.inl (hostToken_ne_empty (mem_FindAllString h1)))
        · rename_i hraw
          simp only [List.mem_append, List.mem_singleton] at hx
          rcases hx with hx | rfl
          · exact Or.inl hx
          · by_cases hid : e.AssetIdentifier = ""
            · exact Or.inr (Or.inr ⟨by simpa using hraw, hid⟩)
            · exact Or.inr (Or.inl hid)
      · exact Or.inl hx
    · exact Or.inl hx
  · exact Or.inl hx

theorem mem_foldl_scanScope {bbpOnly : Bool} {categories : List String} {isDumpAll : Bool} :
    ∀ (data : List StructuredScope) (st : Seen),
      ∀ x ∈ (data.foldl (scanScope bbpOnly categories isDumpAll) st).1,
        x ∈ st.1 ∨ x.Target ≠ "" ∨
          ∃ s ∈ data, isTextAsset s.AssetType = false ∧ s.AssetIdentifier = "" := by
  intro data
  induction data with
  | nil => intro st x hx; exact Or.inl hx
  | cons e es ih =>
    intro st x hx
    rw [List.foldl_cons] at hx
    rcases ih _ x hx with h | h | ⟨s, hs, h⟩
    · rcases mem_scanScope h with h | h | h
      · exact Or.inl h
      · exact Or.inr (Or.inl h)
      · exact Or.inr (Or.inr ⟨e, by simp, h⟩)
    · exact Or.inr (Or.inl h)
    · exact Or.inr (Or.inr ⟨s, by simp [hs], h⟩)

theorem inScopeOf_eq (bbpOnly : Bool) (categories : List String) (data : List StructuredScope) :
    inScopeOf bbpOnly categories data
      = .ok (data.foldl (scanScope bbpOnly categories (categories.length == 11)) ([], [])).1 := by
  simp [inScopeOf, getCategories_all]

theorem fetchLoop_all429 (net : Net Body) (url : String) (n : Nat) (trace : List String)
    (last : Int) (res : WHTTPRes Body)
    (h : ∀ j < n + 1, ∃ r, net (trace ++ List.replicate j url) url = .res r ∧
      r.StatusCode = 429) :
    (fetchLoop net url (n + 1) trace last res).1 = trace ++ List.replicate (n + 1) url ∧
      (fetchLoop net url (n + 1) trace last res).2.1 = 429 := by
  refine ⟨(fetchLoop_exhaust net url (n + 1) trace last res (fun j hj => Or.inr (h j hj))).1, ?_⟩
  obtain ⟨r, h0, hr⟩ := h 0 (by omega)
  simp only [List.replicate_zero, List.append_nil] at h0
  have hshift : ∀ j < n, net ((trace ++ [url]) ++ List.replicate j url) url = .err ∨
      ∃ r, net ((trace ++ [url]) ++ List.replicate j url) url = .res r ∧ r.StatusCode = 429 := by
    intro j hj
    have := h (j + 1) (by omega)
    exact Or.inr (by simpa [List.replicate_succ] using this)
  have := (fetchLoop_exhaust net url n (trace ++ [url]) r.StatusCode r hshift).2
  rw [hr] at this
  simp only [fetchLoop, h0, hr, RATE_LIMIT_HTTP_STATUS, ne_eq, not_true_eq_false, if_false]
  rcases this with h2 | h2 <;> exact h2

/-- The part of `getProgramScope` after the loop, in terms of what the loop returns. -/
theorem getProgramScope_of_loop {net : Net Body} {trace : List String} {id : String}
    (bbpOnly : Bool) (categories : List String) {out : List String × Int × WHTTPRes Body}
    (h : fetchLoop net (programURL id) RATE_LIMIT_MAX_RETRIES trace (-1) ⟨0, {}⟩ = out) :
    getProgramScope net trace id bbpOnly categories =
      if out.2.1 ≠ 200 then .fatal out.1 (.couldNotRetrieve out.2.1)
      else match out.2.2.BodyString.program with
        | none => .fatal out.1 (.couldNotParse out.2.1)
        | some p => .ok out.1 ⟨"https://hackerone.com/" ++ id,
            (p.Data.foldl (scanScope bbpOnly categories (categories.length == 11)) ([], [])).1⟩ := by
  unfold getProgramScope
  rw [h]
  obtain ⟨t, l, res⟩ := out
  simp only [inScopeOf_eq]

end Hackerone

/-! ## Pagination -/

namespace Bugcrowd

theorem handlesLoop_pages (net : Net Body) (bbpOnly pvtOnly : Bool) (K : Nat)
    (pages : Nat → List String)
    (hnet : ∀ (t : List String) (i : Nat), 1 ≤ i → i ≤ K →
      ∃ r, net t (pageURL bbpOnly pvtOnly i) = .res r ∧ r.StatusCode ≠ 429 ∧
        r.BodyString.programUrls = pages i ∧ (i = 1 → r.BodyString.totalPages = K)) :
    ∀ (d p fuel : Nat) (trace : List String) (tp : Int) (paths : List String),
      1 ≤ p → p + d = K → d + 1 ≤ fuel → (tp = K ∨ (tp = 0 ∧ p = 1)) →
      handlesLoop net bbpOnly pvtOnly fuel trace tp p paths
        = some (.ok (trace ++ (List.range (d + 1)).map fun i => pageURL bbpOnly pvtOnly (p + i))
            (paths ++ (List.range (d + 1)).flatMap fun i => pages (p + i))) := by
  intro d
  induction d with
  | zero =>
    intro p fuel trace tp paths hp hpd hfuel htp
    obtain ⟨r, hr, h429, hurls, htot⟩ := hnet trace p hp (by omega)
    have htp1 : (if tp = 0 then r.BodyString.totalPages else tp) = (K : Int) := by
      rcases htp with h | ⟨h0, h1⟩
      · rw [if_neg (by rw [h]; omega), h]
      · rw [if_pos h0, htot h1]
    cases fuel with
    | zero => omega
    | succ fuel =>
      have hgt : ((p + 1 : Nat) : Int) > (K : Int) := by omega
      rw [handlesLoop]
      simp only [hr, h429, ne_eq, not_false_eq_true, if_true, htp1, hgt, hurls]
      simp [List.range_succ]
  | succ d ih =>
    intro p fuel trace tp paths hp hpd hfuel htp
    obtain ⟨r, hr, h429, hurls, htot⟩ := hnet trace p hp (by omega)
    have htp1 : (if tp = 0 then r.BodyString.totalPages else tp) = (K : Int) := by
      rcases htp with h | ⟨h0, h1⟩
      · rw [if_neg (by rw [h]; omega), h]
      · rw [if_pos h0, htot h1]
    cases fuel with
    | zero => omega
    | succ fuel =>
      have hgt : ¬ ((p + 1 : Nat) : Int) > (K : Int) := by omega
      have hrec := ih (p + 1) fuel (trace ++ [pageURL bbpOnly pvtOnly p]) (K : Int)
        (paths ++ pages p) (by omega) (by omega) (by omega) (Or.inl rfl)
      rw [handlesLoop]
      simp only [hr, h429, ne_eq, not_false_eq_true, if_true, htp1, hgt, if_false, hurls]
      rw [hrec, List.range_succ_eq_map (d + 1)]
      simp only [List.map_cons, List.map_map, List.flatMap_cons, List.append_assoc,
        List.singleton_append, Nat.add_zero, List.flatMap_map]
      have e1 : ∀ i, p + 1 + i = p + (i + 1) := fun i => by omega
      simp only [Function.comp_def, e1, Nat.succ_eq_add_one]

theorem length_flatMap_range (f : Nat → List String) (S : Nat) :
    ∀ n : Nat, (∀ i < n, (f i).length = S) → ((List.range n).flatMap f).length = n * S := by
  intro n
  induction n with
  | zero => intro _; simp
  | succ n ih =>
    intro h
    rw [List.range_succ, List.flatMap_append, List.length_append,
      ih (fun i hi => h i (by omega))]
    simp only [List.flatMap_cons, List.flatMap_nil, List.append_nil, h n (by omega)]
    rw [Nat.succ_mul]

end Bugcrowd

/-! ## Example tokens -/

theorem hostToken_foo : HostToken "foo.example.com" := by
  refine ⟨["foo".data, "example".data], "com".data, by simp, ?_, ?_, by decide, rfl⟩
  · intro l hl
    simp only [List.mem_cons, List.mem_singleton, List.not_mem_nil, or_false] at hl
    rcases hl with rfl | rfl <;> (unfold IsLabel; decide)
  · unfold IsLabel; decide

theorem hostToken_bar : HostToken "bar.org" := by
  refine ⟨["bar".data], "org".data, by simp, ?_, ?_, by decide, rfl⟩
  · intro l hl
    simp only [List.mem_singleton] at hl
    subst hl
    unfold IsLabel; decide
  · unfold IsLabel; decide

theorem specToken_a_b : SpecToken "a.b" := by
  refine ⟨["a".data], "b".data, by simp, ?_, ?_, by decide, rfl⟩
  · intro l hl
    simp only [List.mem_singleton] at hl
    subst hl
    unfold IsLabel; decide
  · unfold IsLabel; decide

/-! ## Calls of the resolvers: run alone, they are the resolvers -/

namespace Hackerone

theorem fetchCall_run (net : Net Body) (url : String) (rest : Int → WHTTPRes Body → Call Body) :
    ∀ (n : Nat) (trace : List String) (lastStatus : Int) (res : WHTTPRes Body),
      Call.run net (fetchCall url rest n lastStatus res) trace
        = Call.run net
            (rest (fetchLoop net url n trace lastStatus res).2.1
              (fetchLoop net url n trace lastStatus res).2.2)
            (fetchLoop net url n trace lastStatus res).1 := by
  intro n
  induction n with
  | zero => intro trace lastStatus res; rfl
  | succ n ih =>
    intro trace lastStatus res
    simp only [fetchCall, Call.run, fetchLoop]
    cases net trace url with
    | err => exact ih _ _ _
    | res r =>
      simp only []
      split
      · rfl
      · exact ih _ _ _

/-- The call of `getProgramScope`, run with no other goroutine in between, is
the function `getProgramScope`. -/
theorem getProgramScopeCall_run (net : Net Body) (trace : List String) (id : String)
    (bbpOnly : Bool) (categories : List String) :
    Call.run net (getProgramScopeCall id bbpOnly categories) trace
      = some (getProgramScope net trace id bbpOnly categories) := by
  unfold getProgramScopeCall getProgramScope
  rw [fetchCall_run]
  generalize fetchLoop net (programURL id) RATE_LIMIT_MAX_RETRIES trace (-1) ⟨0, {}⟩ = out
  obtain ⟨trace1, lastStatus, res⟩ := out
  simp only [scopeOfResponse]
  split
  · rfl
  · split
    · rfl
    · split
      · rfl
      · rfl

theorem resolveCall_run (net : Net Body) (trace : List String) (id : String)
    (bbpOnly : Bool) (categories : String) :
    Call.run net (resolveCall id bbpOnly categories) trace
      = some (resolveProgram net trace id bbpOnly categories) := by
  unfold resolveCall resolveProgram
  split
  · rfl
  · exact getProgramScopeCall_run net trace id bbpOnly _

end Hackerone

namespace Bugcrowd

theorem sendCall_run (net : Net Body) (url : String) (rest : WHTTPRes Body → Call Body) :
    ∀ (fuel : Nat) (trace : List String),
      Call.run net (sendCall url rest fuel) trace
        = match sendUntilNot429 net url fuel trace with
          | none => none
          | some (.fatal trace1 e) => some (.fatal trace1 e)
          | some (.ok trace1 r) => Call.run net (rest r) trace1 := by
  intro fuel
  induction fuel with
  | zero => intro trace; rfl
  | succ fuel ih =>
    intro trace
    simp only [sendCall, Call.run, sendUntilNot429]
    cases net trace url with
    | err => rfl
    | res r =>
      simp only []
      split
      · rfl
      · exact ih _

theorem scopeTablesCall_run (net : Net Body) (fuel : Nat) (handle categories : String)
    (res : WHTTPRes Body) :
    ∀ (urls trace : List String) (pData : ProgramData),
      Call.run net (scopeTablesCall fuel handle categories res urls pData) trace
        = scopeTables net fuel handle categories res urls trace pData := by
  intro urls
  induction urls with
  | nil => intro trace pData; rfl
  | cons u us ih =>
    intro trace pData
    simp only [scopeTablesCall, scopeTables]
    rw [sendCall_run]
    split
    · rfl
    · rfl
    · split
      · rfl
      · split
        · rfl
        · exact ih _ _

/-- The call of `GetProgramScope`, run with no other goroutine in between, is
the function `GetProgramScope`. -/
theorem GetProgramScopeCall_run (net : Net Body) (fuel : Nat) (trace : List String)
    (handle categories : String) :
    Call.run net (GetProgramScopeCall fuel handle categories) trace
      = GetProgramScope net fuel trace handle categories := by
  unfold GetProgramScopeCall GetProgramScope
  rw [sendCall_run]
  split
  · rfl
  · rfl
  · exact scopeTablesCall_run net fuel handle categories _ _ _ _

end Bugcrowd

/-! ## The worker pool -/

namespace Bugcrowd

end Bugcrowd

namespace Bugcrowd

end Bugcrowd

namespace Hackerone

end Hackerone

/-! ## The loop over the structured scopes: what was appended before stays -/

theorem addMatches_onto (d cat : String) :
    ∀ (ms : List String) (l : List ScopeElement) (m : List String),
      addMatches d cat (l, m) ms
        = (l ++ (addMatches d cat ([], m) ms).1, (addMatches d cat ([], m) ms).2) := by
  intro ms
  induction ms with
  | nil => intro l m; simp [addMatches]
  | cons x ms ih =>
    intro l m
    simp only [addMatches, List.foldl_cons] at ih ⊢
    by_cases hx : x ∈ m
    · simp only [hx, if_true]
      exact ih l m
    · simp only [hx, if_false, List.nil_append]
      have h1 := ih (l ++ [ScopeElement.mk x d cat]) (x :: m)
      have h2 := ih [ScopeElement.mk x d cat] (x :: m)
      rw [h1, h2]
      simp

namespace Hackerone

theorem scanScope_onto (bbpOnly : Bool) (categories : List String) (isDumpAll : Bool)
    (e : StructuredScope) (l : List ScopeElement) (m : List String) :
    scanScope bbpOnly categories isDumpAll (l, m) e
      = (l ++ (scanScope bbpOnly categories isDumpAll ([], m) e).1,
          (scanScope bbpOnly categories isDumpAll ([], m) e).2) := by
  unfold scanScope
  dsimp only
  split
  · split
    · split
      · split
        · rw [addMatches_onto _ _ (FindAllString (ToLower e.AssetIdentifier)) l m,
            addMatches_onto _ _ (FindAllString (ToLower e.Instruction)),
            addMatches_onto _ _ (FindAllString (ToLower e.Instruction))
              (addMatches (replaceNewlines e.Instruction) "" ([], m)
                (FindAllString (ToLower e.AssetIdentifier))).1]
          simp
        · simp
      · simp
    · simp
  · simp

theorem foldl_scanScope_onto (bbpOnly : Bool) (categories : List String) (isDumpAll : Bool) :
    ∀ (data : List StructuredScope) (st : Seen),
      (data.foldl (scanScope bbpOnly categories isDumpAll) st).1
        = st.1 ++ (data.foldl (scanScope bbpOnly categories isDumpAll) ([], st.2)).1 := by
  have key : ∀ (data : List StructuredScope) (l : List ScopeElement) (m : List String),
      data.foldl (scanScope bbpOnly categories isDumpAll) (l, m)
        = (l ++ (data.foldl (scanScope bbpOnly categories isDumpAll) ([], m)).1,
            (data.foldl (scanScope bbpOnly categories isDumpAll) ([], m)).2) := by
    intro data
    induction data with
    | nil => intro l m; simp
    | cons e rest ih =>
      intro l m
      simp only [List.foldl_cons]
      rw [scanScope_onto, ih, ih (scanScope bbpOnly categories isDumpAll ([], m) e).1]
      simp
  intro data st
  obtain ⟨l, m⟩ := st
  rw [key]

/-- A program request answered at once with status 200 and a payload that
parses: `getProgramScope` issues that one request and returns what the loop over
the structured scopes appended. -/
theorem getProgramScope_of_response {net : Net Body} {trace : List String} {id : String}
    (bbpOnly : Bool) (categories : List String) {r : WHTTPRes Body} {p : Program}
    (hr : net trace (programURL id) = .res r) (h200 : r.StatusCode = 200)
    (hp : r.BodyString.program = some p) :
    getProgramScope net trace id bbpOnly categories
      = .ok (trace ++ [programURL id]) ⟨"https://hackerone.com/" ++ id,
          (p.Data.foldl (scanScope bbpOnly categories (categories.length == 11)) ([], [])).1⟩ := by
  have hloop := fetchLoop_break net (programURL id) RATE_LIMIT_MAX_RETRIES 0 trace (-1) ⟨0, {}⟩ r
    (by decide) (fun j hj => absurd hj (Nat.not_lt_zero j)) (by simpa using hr)
    (by rw [h200]; decide)
  rw [getProgramScope_of_loop bbpOnly categories hloop]
  simp [h200, hp]

end Hackerone

/-! ## The claims

Bugcrowd resolver (C1-C3), both resolvers (C4), HackerOne resolver (C5), pattern
extractor (C6, C7), HackerOne fetch loop (C8, C9), Bugcrowd pagination (C10),
`GetAllProgramsScope` (C11, C12).
-/

/-- C1 (the code at the failing input): a program with two in-scope groups that
both list `foo.example.com`.  `GetProgramScope` returns two elements with that
target: the `targets` map is created anew for every group. -/
theorem duplicate_target_across_groups :
    Bugcrowd.GetProgramScope Bugcrowd.twoGroupsNet 1 [] "/acme" "url"
      = some (.ok
          ["https://bugcrowd.com/acme/target_groups",
            "https://bugcrowd.com/acme/target_groups/1/targets",
            "https://bugcrowd.com/acme/target_groups/2/targets"]
          ⟨"/acme_bc",
            [⟨"foo.example.com", "", "website"⟩, ⟨"foo.example.com", "", "website"⟩]⟩) := by
  decide

/-- C2 (the code at the failing input): the end-to-end example of the spec.  The
target list of the group is requested, but the entries scanned are those of the
target-groups payload, which has none: `InScope` is empty. -/
theorem group_target_list_not_parsed :
    Bugcrowd.GetProgramScope Bugcrowd.exampleNet 1 [] "/acme" "url"
      = some (.ok
          ["https://bugcrowd.com/acme/target_groups",
            "https://bugcrowd.com/acme/target_groups/1/targets"]
          ⟨"/acme_bc", []⟩) := by
  decide

/-- C3 (the code at the failing input): with the keyword `all` the category
check of every target entry ends in the fatal error of `GetCategories`, and so
does the resolution of a program with one in-scope group and one entry. -/
theorem all_keyword_is_fatal :
    (∀ (st : Seen) (target : Bugcrowd.Target),
      Bugcrowd.scanTarget "all" st target = .error .invalidCategory) ∧
    Bugcrowd.GetProgramScope Bugcrowd.oneGroupNet 1 [] "/acme" "all"
      = some (.fatal
          ["https://bugcrowd.com/acme/target_groups",
            "https://bugcrowd.com/acme/target_groups/1/targets"]
          .invalidCategory) := by
  refine ⟨fun st target => rfl, by decide⟩

/-- C4 (amended): Bugcrowd `GetProgramScope` never returns an element with an
empty target.  HackerOne `getProgramScope` returns one only for a structured
scope of a non-text asset type whose `asset_identifier` is itself empty: the
targets taken from matches of the regular expression are never empty, and the
other targets are raw identifiers. -/
theorem inScope_target_nonempty :
    (∀ (net : Net Bugcrowd.Body) (fuel : Nat) (trace tr : List String)
        (handle categories : String) (pd : ProgramData),
        Bugcrowd.GetProgramScope net fuel trace handle categories = some (.ok tr pd) →
        ∀ e ∈ pd.InScope, e.Target ≠ "") ∧
    (∀ (net : Net Hackerone.Body) (trace tr : List String) (id : String) (bbpOnly : Bool)
        (categories : List String) (pd : ProgramData),
        Hackerone.getProgramScope net trace id bbpOnly categories = .ok tr pd →
        ∀ e ∈ pd.InScope, e.Target = "" →
          ∃ t r p s, net t (Hackerone.programURL id) = .res r ∧ r.BodyString.program = some p ∧
            s ∈ p.Data ∧ Hackerone.isTextAsset s.AssetType = false ∧ s.AssetIdentifier = "") := by
  refine ⟨?_, ?_⟩
  · intro net fuel trace tr handle categories pd h
    exact Bugcrowd.GetProgramScope_target_ne h
  · intro net trace tr id bbpOnly categories pd h e he h0
    obtain ⟨t, r, p, hnet, hp, hin⟩ := Hackerone.getProgramScope_ok h
    rw [Hackerone.inScopeOf_eq] at hin
    injection hin with hin
    rw [← hin] at he
    rcases Hackerone.mem_foldl_scanScope _ _ e he with h1 | h1 | ⟨s, hs, h1⟩
    · simp at h1
    · exact absurd h0 h1
    · exact ⟨t, r, p, s, hnet, hp, hs, h1⟩

/-- Witness for `inScope_target_nonempty`, on a Bugcrowd program with two groups
and on a HackerOne program with an empty CIDR identifier. -/
theorem inScope_target_nonempty_witness :
    (∀ e ∈ ([⟨"foo.example.com", "", "website"⟩, ⟨"foo.example.com", "", "website"⟩] :
        List ScopeElement), e.Target ≠ "") ∧
    (∀ e ∈ ([⟨"", "", ""⟩] : List ScopeElement), e.Target = "" →
      ∃ t r p s, Hackerone.emptyIdentifierNet t (Hackerone.programURL "acme") = .res r ∧
        r.BodyString.program = some p ∧ s ∈ p.Data ∧
        Hackerone.isTextAsset s.AssetType = false ∧ s.AssetIdentifier = "") :=
  ⟨inScope_target_nonempty.1 Bugcrowd.twoGroupsNet 1 []
      ["https://bugcrowd.com/acme/target_groups",
        "https://bugcrowd.com/acme/target_groups/1/targets",
        "https://bugcrowd.com/acme/target_groups/2/targets"] "/acme" "url"
      ⟨"/acme_bc", [⟨"foo.example.com", "", "website"⟩, ⟨"foo.example.com", "", "website"⟩]⟩
      (by decide),
    inScope_target_nonempty.2 Hackerone.emptyIdentifierNet []
      ["https://api.hackerone.com/v1/hackers/programs/acme"] "acme" false ["CIDR"]
      ⟨"https://hackerone.com/acme", [⟨"", "", ""⟩]⟩ (by decide)⟩

/-- C4 (counterexample): HackerOne `getProgramScope` on a program whose CIDR
entry has an empty `asset_identifier` returns an element with an empty target. -/
theorem hackerone_empty_target :
    Hackerone.getProgramScope Hackerone.emptyIdentifierNet [] "acme" false ["CIDR"]
      = .ok ["https://api.hackerone.com/v1/hackers/programs/acme"]
          ⟨"https://hackerone.com/acme", [⟨"", "", ""⟩]⟩ := by decide

/-- C5: HackerOne `getProgramScope`, called with the tag list `cats` that the
keyword resolves to (keywords are looked up in lower case), where `net data` is
a server that answers the program request with status 200 and the structured
scopes `data`.  Take the payload `pre ++ e :: post`; let `before` be the
`InScope` that `getProgramScope` returns for the payload `pre`, and
`before ++ later` the one it returns for `pre ++ post`, the payload without the
entry `e`.  When `e` fails one of (a) the keyword is `all` or its asset type is
among `cats`, (b) it is eligible for submission, (c) with `bbpOnly` set it is
eligible for bounty, the payload with `e` gives the same `InScope` as the
payload without it: the entry contributes nothing.  When `e` is of a non-text
asset type and meets (a)-(c), the payload with `e` gives
`before ++ raw :: later`: the entry contributes exactly one element, at its
place, whose target is its raw `asset_identifier`. -/
theorem scope_entry_gates (net : List Hackerone.StructuredScope → Net Hackerone.Body)
    (trace : List String) (id : String)
    (hnet : ∀ data, ∃ r, net data trace (Hackerone.programURL id) = .res r ∧
      r.StatusCode = 200 ∧ r.BodyString.program = some ⟨data⟩)
    (keyword : String) (cats : List String)
    (hk : Hackerone.getCategories keyword = .ok cats) (bbpOnly : Bool)
    (pre : List Hackerone.StructuredScope) (e : Hackerone.StructuredScope)
    (post : List Hackerone.StructuredScope) :
    ∃ before later,
      Hackerone.getProgramScope (net pre) trace id bbpOnly cats
        = .ok (trace ++ [Hackerone.programURL id]) ⟨"https://hackerone.com/" ++ id, before⟩ ∧
      Hackerone.getProgramScope (net (pre ++ post)) trace id bbpOnly cats
        = .ok (trace ++ [Hackerone.programURL id])
            ⟨"https://hackerone.com/" ++ id, before ++ later⟩ ∧
      (¬ ((ToLower keyword = "all" ∨ e.AssetType ∈ cats) ∧ e.EligibleForSubmission = true ∧
          (bbpOnly = true → e.EligibleForBounty = true)) →
        Hackerone.getProgramScope (net (pre ++ e :: post)) trace id bbpOnly cats
          = .ok (trace ++ [Hackerone.programURL id])
              ⟨"https://hackerone.com/" ++ id, before ++ later⟩) ∧
      ((ToLower keyword = "all" ∨ e.AssetType ∈ cats) → e.EligibleForSubmission = true →
        (bbpOnly = true → e.EligibleForBounty = true) →
        Hackerone.isTextAsset e.AssetType = false →
        Hackerone.getProgramScope (net (pre ++ e :: post)) trace id bbpOnly cats
          = .ok (trace ++ [Hackerone.programURL id])
              ⟨"https://hackerone.com/" ++ id,
                before ++ ⟨e.AssetIdentifier, replaceNewlines e.Instruction, ""⟩ :: later⟩) := by
  have hall : ((cats.length == 11) = true) ↔ ToLower keyword = "all" := by
    rw [beq_iff_eq]
    exact Hackerone.length_eq_eleven_iff hk
  have hrun : ∀ data, Hackerone.getProgramScope (net data) trace id bbpOnly cats
      = .ok (trace ++ [Hackerone.programURL id]) ⟨"https://hackerone.com/" ++ id,
          (data.foldl (Hackerone.scanScope bbpOnly cats (cats.length == 11)) ([], [])).1⟩ := by
    intro data
    obtain ⟨r, hr, h200, hp⟩ := hnet data
    exact Hackerone.getProgramScope_of_response bbpOnly cats hr h200 hp
  refine ⟨(pre.foldl (Hackerone.scanScope bbpOnly cats (cats.length == 11)) ([], [])).1,
    (post.foldl (Hackerone.scanScope bbpOnly cats (cats.length == 11))
      ([], (pre.foldl (Hackerone.scanScope bbpOnly cats (cats.length == 11)) ([], [])).2)).1,
    hrun pre, ?_, ?_, ?_⟩
  · rw [hrun, List.foldl_append, Hackerone.foldl_scanScope_onto]
  · intro hgate
    rw [hrun, List.foldl_append, List.foldl_cons,
      Hackerone.scanScope_of_not_gate _ (by rw [hall]; exact hgate),
      Hackerone.foldl_scanScope_onto]
  · intro h1 h2 h3 h4
    rw [hrun, List.foldl_append, List.foldl_cons,
      Hackerone.scanScope_of_raw _ (by rw [hall]; exact h1) h2 h3 h4,
      Hackerone.foldl_scanScope_onto]
    simp

/-- Witness for `scope_entry_gates`: keyword `cidr` with `bbpOnly` set, and a
payload of three CIDR entries.  When the middle entry is eligible, its raw
identifier is the middle element of `InScope`; when it is not eligible for
submission, `InScope` holds the two other entries only. -/
theorem scope_entry_gates_witness :
    Hackerone.getProgramScope
        (Hackerone.programNet
          ([Hackerone.StructuredScope.mk "CIDR" "192.168.0.0/16" true true ""]
            ++ Hackerone.StructuredScope.mk "CIDR" "10.0.0.0/8" true true "office"
              :: [Hackerone.StructuredScope.mk "CIDR" "172.16.0.0/12" true true ""]))
        [] "acme" true ["CIDR"]
      = .ok ([] ++ [Hackerone.programURL "acme"])
          ⟨"https://hackerone.com/" ++ "acme",
            [⟨"192.168.0.0/16", "", ""⟩] ++ ⟨"10.0.0.0/8", replaceNewlines "office", ""⟩
              :: [⟨"172.16.0.0/12", "", ""⟩]⟩ ∧
    Hackerone.getProgramScope
        (Hackerone.programNet
          ([Hackerone.StructuredScope.mk "CIDR" "192.168.0.0/16" true true ""]
            ++ Hackerone.StructuredScope.mk "CIDR" "10.0.0.0/8" true false "office"
              :: [Hackerone.StructuredScope.mk "CIDR" "172.16.0.0/12" true true ""]))
        [] "acme" true ["CIDR"]
      = .ok ([] ++ [Hackerone.programURL "acme"])
          ⟨"https://hackerone.com/" ++ "acme",
            [⟨"192.168.0.0/16", "", ""⟩] ++ [⟨"172.16.0.0/12", "", ""⟩]⟩ := by
  have e1 : Hackerone.getProgramScope
      (Hackerone.programNet [Hackerone.StructuredScope.mk "CIDR" "192.168.0.0/16" true true ""])
      [] "acme" true ["CIDR"]
      = .ok ([] ++ [Hackerone.programURL "acme"])
          ⟨"https://hackerone.com/" ++ "acme", [⟨"192.168.0.0/16", "", ""⟩]⟩ := by decide
  have e2 : Hackerone.getProgramScope
      (Hackerone.programNet
        ([Hackerone.StructuredScope.mk "CIDR" "192.168.0.0/16" true true ""]
          ++ [Hackerone.StructuredScope.mk "CIDR" "172.16.0.0/12" true true ""]))
      [] "acme" true ["CIDR"]
      = .ok ([] ++ [Hackerone.programURL "acme"])
          ⟨"https://hackerone.com/" ++ "acme",
            [⟨"192.168.0.0/16", "", ""⟩] ++ [⟨"172.16.0.0/12", "", ""⟩]⟩ := by decide
  refine ⟨?_, ?_⟩
  · obtain ⟨before, later, h1, h2, _, h4⟩ :=
      scope_entry_gates Hackerone.programNet [] "acme" (fun _ => ⟨_, rfl, rfl, rfl⟩)
        "cidr" ["CIDR"] rfl true
        [Hackerone.StructuredScope.mk "CIDR" "192.168.0.0/16" true true ""]
        (Hackerone.StructuredScope.mk "CIDR" "10.0.0.0/8" true true "office")
        [Hackerone.StructuredScope.mk "CIDR" "172.16.0.0/12" true true ""]
    rw [e1] at h1
    rw [e2] at h2
    simp only [Run.ok.injEq, ProgramData.mk.injEq, true_and] at h1 h2
    subst h1
    rw [List.append_cancel_left h2]
    exact h4 (Or.inr (by decide)) rfl (fun _ => rfl) (by decide)
  · obtain ⟨before, later, h1, h2, h3, _⟩ :=
      scope_entry_gates Hackerone.programNet [] "acme" (fun _ => ⟨_, rfl, rfl, rfl⟩)
        "cidr" ["CIDR"] rfl true
        [Hackerone.StructuredScope.mk "CIDR" "192.168.0.0/16" true true ""]
        (Hackerone.StructuredScope.mk "CIDR" "10.0.0.0/8" true false "office")
        [Hackerone.StructuredScope.mk "CIDR" "172.16.0.0/12" true true ""]
    rw [e1] at h1
    rw [e2] at h2
    simp only [Run.ok.injEq, ProgramData.mk.injEq, true_and] at h1 h2
    subst h1
    rw [List.append_cancel_left h2]
    exact h3 (fun h => Bool.noConfusion h.2.1)

/-- C6 (amended): the last label of a token has 2 to 63 characters (the other
labels 1 to 63).  For every text that consists wholly of one such token the
extractor returns exactly that token; and every token the extractor returns from
any text is such a token, hence also a token of the grammar as the spec words it. -/
theorem extract_grammar :
    (∀ t : String, HostToken t → extract t = [t]) ∧
    (∀ text tok : String, tok ∈ extract text → HostToken tok ∧ SpecToken tok) := by
  refine ⟨?_, ?_⟩
  · intro t ht
    have h := extract_tokensAsText " " (by decide) (by decide) [t]
      (by simp) (by simpa using ht)
    simpa [tokensAsText, joinWith] using h
  · intro text tok h
    have ht := mem_extract h
    refine ⟨ht, ?_⟩
    obtain ⟨labels, last, h1, h2, h3, h4, h5⟩ := ht
    exact ⟨labels, last, h1, h2, h3, by omega, h5⟩

/-- Witness for `extract_grammar`: the token `foo.example.com`, alone and inside a URL. -/
theorem extract_grammar_witness :
    extract "foo.example.com" = ["foo.example.com"] ∧
    (HostToken "foo.example.com" ∧ SpecToken "foo.example.com") :=
  ⟨extract_grammar.1 "foo.example.com" hostToken_foo,
    extract_grammar.2 "https://Foo.Example.com/path" "foo.example.com" (by decide)⟩

/-- C6 (counterexample): `a.b` is a token of the grammar in the spec (both labels
have one character), and the extractor returns nothing for it. -/
theorem extract_one_char_last_label : SpecToken "a.b" ∧ extract "a.b" = [] :=
  ⟨specToken_a_b, by decide⟩

/-- C7 (amended): for tokens whose last label has 2 to 63 characters (the other
labels 1 to 63).  For every non-empty separator of whitespace characters and
every duplicate-free list of such tokens, the extractor applied to the tokens
written out with the separator between them returns the same tokens in the same
order; in particular, writing out what the extractor returned from any text and
extracting again returns the same list. -/
theorem extract_round_trip (sep : String) (hne : sep ≠ "")
    (hsep : ∀ c ∈ sep.data, c.isWhitespace = true) :
    (∀ tokens : List String, tokens.Nodup → (∀ t ∈ tokens, HostToken t) →
      extract (tokensAsText sep tokens) = tokens) ∧
    (∀ text : String, extract (tokensAsText sep (extract text)) = extract text) :=
  ⟨fun tokens hnd htok => extract_tokensAsText sep hne hsep tokens hnd htok,
    fun text => extract_tokensAsText sep hne hsep (extract text) (extract_nodup text)
      (fun _ h => mem_extract h)⟩

/-- Witness for `extract_round_trip`: two tokens separated by a space. -/
theorem extract_round_trip_witness :
    extract (tokensAsText " " ["foo.example.com", "bar.org"]) = ["foo.example.com", "bar.org"] ∧
    extract (tokensAsText " " (extract "see Foo.example.com, bar.org and foo.example.com"))
      = extract "see Foo.example.com, bar.org and foo.example.com" :=
  ⟨(extract_round_trip " " (by decide) (by decide)).1 ["foo.example.com", "bar.org"] (by decide)
      (by
        intro t ht
        simp only [List.mem_cons, List.mem_singleton, List.not_mem_nil, or_false] at ht
        rcases ht with rfl | rfl
        · exact hostToken_foo
        · exact hostToken_bar),
    (extract_round_trip " " (by decide) (by decide)).2
      "see Foo.example.com, bar.org and foo.example.com"⟩

/-- C7 (counterexample): the one-element list `a.b` is duplicate-free and its
token is of the grammar in the spec, but the extractor returns nothing from its
text. -/
theorem round_trip_one_char_last_label :
    SpecToken "a.b" ∧ ["a.b"].Nodup ∧ extract (tokensAsText " " ["a.b"]) = [] ∧
      extract (tokensAsText " " ["a.b"]) ≠ ["a.b"] :=
  ⟨specToken_a_b, by decide, by decide, by decide⟩

/-- C8: the loop of HackerOne `getProgramScope` on responses only.  If each of
the first 50 requests is answered with status 429, the run issues exactly 50
requests and ends in the fatal error with status 429.  If the first `k` requests
(`k < 50`) are answered with 429 and the next one with a response `r` of another
status, the run issues exactly `k + 1` requests, and it ends in the fatal error
of the fetch exactly when the status of `r` is not 200. -/
theorem fetch_retry_bound (net : Net Hackerone.Body) (trace : List String) (id : String)
    (bbpOnly : Bool) (categories : List String) :
    ((∀ j < 50, ∃ r, net (trace ++ List.replicate j (Hackerone.programURL id))
          (Hackerone.programURL id) = .res r ∧ r.StatusCode = 429) →
      Hackerone.getProgramScope net trace id bbpOnly categories
        = .fatal (trace ++ List.replicate 50 (Hackerone.programURL id)) (.couldNotRetrieve 429)) ∧
    (∀ (k : Nat) (r : WHTTPRes Hackerone.Body), k < 50 →
      (∀ j < k, ∃ r, net (trace ++ List.replicate j (Hackerone.programURL id))
          (Hackerone.programURL id) = .res r ∧ r.StatusCode = 429) →
      net (trace ++ List.replicate k (Hackerone.programURL id)) (Hackerone.programURL id)
        = .res r →
      r.StatusCode ≠ 429 →
      (Hackerone.getProgramScope net trace id bbpOnly categories).trace
          = trace ++ List.replicate (k + 1) (Hackerone.programURL id) ∧
        ((∃ s, Hackerone.getProgramScope net trace id bbpOnly categories
            = .fatal (trace ++ List.replicate (k + 1) (Hackerone.programURL id))
                (.couldNotRetrieve s)) ↔ r.StatusCode ≠ 200)) := by
  refine ⟨?_, ?_⟩
  · intro h
    have hloop := Hackerone.fetchLoop_all429 net (Hackerone.programURL id) 49 trace (-1) ⟨0, {}⟩ h
    generalize hout : Hackerone.fetchLoop net (Hackerone.programURL id) (49 + 1) trace (-1)
      ⟨0, {}⟩ = out at hloop
    rw [Hackerone.getProgramScope_of_loop bbpOnly categories hout, hloop.1, hloop.2]
    rfl
  · intro k r hk h hr hne
    have hout := Hackerone.fetchLoop_break net (Hackerone.programURL id)
      Hackerone.RATE_LIMIT_MAX_RETRIES k trace (-1) ⟨0, {}⟩ r hk (fun j hj => Or.inr (h j hj)) hr hne
    rw [Hackerone.getProgramScope_of_loop bbpOnly categories hout]
    by_cases h200 : r.StatusCode = 200
    · simp only [h200, ne_eq, not_true_eq_false, if_false, iff_false, not_exists]
      cases hp : r.BodyString.program with
      | none => simp [Run.trace]
      | some p => simp [Run.trace]
    · simp [h200, Run.trace]

/-- Witness for `fetch_retry_bound`: an endpoint that always answers 429, and
one that answers 200 at once. -/
theorem fetch_retry_bound_witness :
    Hackerone.getProgramScope Hackerone.rateLimitedNet [] "acme" false []
        = .fatal ([] ++ List.replicate 50 (Hackerone.programURL "acme")) (.couldNotRetrieve 429) ∧
    ((Hackerone.getProgramScope (Hackerone.errorsThenOk 0) [] "acme" false []).trace
        = [] ++ List.replicate (0 + 1) (Hackerone.programURL "acme") ∧
      ((∃ s, Hackerone.getProgramScope (Hackerone.errorsThenOk 0) [] "acme" false []
          = .fatal ([] ++ List.replicate (0 + 1) (Hackerone.programURL "acme"))
              (.couldNotRetrieve s)) ↔ (200 : Int) ≠ 200)) :=
  ⟨(fetch_retry_bound Hackerone.rateLimitedNet [] "acme" false []).1
      (fun _ _ => ⟨⟨429, {}⟩, rfl, rfl⟩),
    (fetch_retry_bound (Hackerone.errorsThenOk 0) [] "acme" false []).2 0 ⟨200, {}⟩
      (by decide) (fun j hj => absurd hj (Nat.not_lt_zero j)) rfl (by decide)⟩

/-- C9 (amended): in the loop of HackerOne `getProgramScope` a transport error
is retried but spends one of the 50 attempts, like a 429 response.  Every run
issues at most 50 requests; when each of the first 50 requests ends in a
transport error or a 429 response, whatever the mix, the run ends in the fatal
error after exactly 50 requests; and `k < 50` transport errors followed by a
200 response are followed by no fatal error of the fetch, after `k + 1` requests. -/
theorem fetch_attempt_budget (net : Net Hackerone.Body) (trace : List String) (id : String)
    (bbpOnly : Bool) (categories : List String) :
    (∃ m, m ≤ 50 ∧ (Hackerone.getProgramScope net trace id bbpOnly categories).trace
        = trace ++ List.replicate m (Hackerone.programURL id)) ∧
    ((∀ j < 50, net (trace ++ List.replicate j (Hackerone.programURL id))
          (Hackerone.programURL id) = .err ∨
        ∃ r, net (trace ++ List.replicate j (Hackerone.programURL id))
          (Hackerone.programURL id) = .res r ∧ r.StatusCode = 429) →
      ∃ s, Hackerone.getProgramScope net trace id bbpOnly categories
        = .fatal (trace ++ List.replicate 50 (Hackerone.programURL id)) (.couldNotRetrieve s)) ∧
    (∀ (k : Nat) (r : WHTTPRes Hackerone.Body), k < 50 →
      (∀ j < k, net (trace ++ List.replicate j (Hackerone.programURL id))
          (Hackerone.programURL id) = .err) →
      net (trace ++ List.replicate k (Hackerone.programURL id)) (Hackerone.programURL id)
        = .res r →
      r.StatusCode = 200 →
      (Hackerone.getProgramScope net trace id bbpOnly categories).trace
          = trace ++ List.replicate (k + 1) (Hackerone.programURL id) ∧
        ∀ t s, Hackerone.getProgramScope net trace id bbpOnly categories
          ≠ .fatal t (.couldNotRetrieve s)) := by
  refine ⟨?_, ?_, ?_⟩
  · obtain ⟨m, hm, hloop⟩ := Hackerone.fetchLoop_trace net (Hackerone.programURL id)
      Hackerone.RATE_LIMIT_MAX_RETRIES trace (-1) ⟨0, {}⟩
    refine ⟨m, hm, ?_⟩
    rw [Hackerone.getProgramScope_of_loop bbpOnly categories rfl, ← hloop]
    split
    · rfl
    · split <;> rfl
  · intro h
    have hloop := Hackerone.fetchLoop_exhaust net (Hackerone.programURL id)
      Hackerone.RATE_LIMIT_MAX_RETRIES trace (-1) ⟨0, {}⟩ h
    generalize hout : Hackerone.fetchLoop net (Hackerone.programURL id)
      Hackerone.RATE_LIMIT_MAX_RETRIES trace (-1) ⟨0, {}⟩ = out at hloop
    rw [Hackerone.getProgramScope_of_loop bbpOnly categories hout]
    have hne : out.2.1 ≠ 200 := by
      rcases hloop.2 with h2 | h2 <;> rw [h2] <;> decide
    rw [if_pos hne, hloop.1]
    exact ⟨_, rfl⟩
  · intro k r hk h hr h200
    have hout := Hackerone.fetchLoop_break net (Hackerone.programURL id)
      Hackerone.RATE_LIMIT_MAX_RETRIES k trace (-1) ⟨0, {}⟩ r hk (fun j hj => Or.inl (h j hj)) hr
      (by rw [h200]; decide)
    rw [Hackerone.getProgramScope_of_loop bbpOnly categories hout]
    simp only [h200, ne_eq, not_true_eq_false, if_false]
    cases hp : r.BodyString.program with
    | none => simp [Run.trace]
    | some p => simp [Run.trace]

/-- Witness for `fetch_attempt_budget`: 50 transport errors in a row, and two
transport errors followed by a 200 response. -/
theorem fetch_attempt_budget_witness :
    (∃ s, Hackerone.getProgramScope (Hackerone.errorsThenOk 50) [] "acme" false []
        = .fatal ([] ++ List.replicate 50 (Hackerone.programURL "acme")) (.couldNotRetrieve s)) ∧
    ((Hackerone.getProgramScope (Hackerone.errorsThenOk 2) [] "acme" false []).trace
        = [] ++ List.replicate (2 + 1) (Hackerone.programURL "acme") ∧
      ∀ t s, Hackerone.getProgramScope (Hackerone.errorsThenOk 2) [] "acme" false []
        ≠ .fatal t (.couldNotRetrieve s)) :=
  ⟨(fetch_attempt_budget (Hackerone.errorsThenOk 50) [] "acme" false []).2.1
      (fun j hj => Or.inl (by simp [Hackerone.errorsThenOk, hj])),
    (fetch_attempt_budget (Hackerone.errorsThenOk 2) [] "acme" false []).2.2 2 ⟨200, {}⟩
      (by decide) (fun j hj => by simp [Hackerone.errorsThenOk, hj])
      (by simp [Hackerone.errorsThenOk]) rfl⟩

/-- C9 (counterexample): 50 transport errors followed by an endpoint that would
answer 200.  The run stops after the 50 failed requests with the fatal error
(status -1): the transport errors have used up the attempts. -/
theorem transport_errors_use_attempts :
    Hackerone.getProgramScope (Hackerone.errorsThenOk 50) [] "acme" false []
        = .fatal (List.replicate 50 (Hackerone.programURL "acme")) (.couldNotRetrieve (-1)) ∧
      Hackerone.errorsThenOk 50 (List.replicate 50 (Hackerone.programURL "acme"))
        (Hackerone.programURL "acme") = .res ⟨200, {}⟩ := by
  decide

/-- C10: Bugcrowd `GetProgramHandles` against a listing of `K ≥ 1` pages, where
every request for page `i` is answered (with a status other than 429) by the
`S` entries `pages i`, and the response for page 1 reports `totalPages = K`.
With fuel for `K` requests or more the function returns: it has requested the
pages 1, ..., `K` once each, in that order, and nothing else, and returns the
entries of the pages in page order, `K * S` in all. -/
theorem handles_pagination (net : Net Bugcrowd.Body) (bbpOnly pvtOnly : Bool) (K S fuel : Nat)
    (pages : Nat → List String) (trace : List String) (hK : 1 ≤ K) (hfuel : K ≤ fuel)
    (hnet : ∀ (t : List String) (i : Nat), 1 ≤ i → i ≤ K →
      ∃ r, net t (Bugcrowd.pageURL bbpOnly pvtOnly i) = .res r ∧ r.StatusCode ≠ 429 ∧
        r.BodyString.programUrls = pages i ∧ (i = 1 → r.BodyString.totalPages = K))
    (hS : ∀ i, 1 ≤ i → i ≤ K → (pages i).length = S) :
    Bugcrowd.GetProgramHandles net fuel trace bbpOnly pvtOnly
        = some (.ok
            (trace ++ (List.range K).map fun i => Bugcrowd.pageURL bbpOnly pvtOnly (i + 1))
            ((List.range K).flatMap fun i => pages (i + 1))) ∧
      ((List.range K).flatMap fun i => pages (i + 1)).length = K * S := by
  refine ⟨?_, Bugcrowd.length_flatMap_range _ S K (fun i hi => hS (i + 1) (by omega) (by omega))⟩
  have h := Bugcrowd.handlesLoop_pages net bbpOnly pvtOnly K pages hnet (K - 1) 1 fuel trace 0 []
    (by omega) (by omega) (by omega) (Or.inr ⟨rfl, rfl⟩)
  have hK1 : K - 1 + 1 = K := by omega
  rw [hK1] at h
  have e1 : ∀ i, 1 + i = i + 1 := fun i => by omega
  simpa only [Bugcrowd.GetProgramHandles, e1, List.nil_append] using h

/-- Witness for `handles_pagination`: a listing of two pages with two programs each. -/
theorem handles_pagination_witness :
    Bugcrowd.GetProgramHandles Bugcrowd.listingNet 2 [] false false
        = some (.ok
            ([] ++ (List.range 2).map fun i => Bugcrowd.pageURL false false (i + 1))
            ((List.range 2).flatMap fun i => (fun _ => ["/acme", "/globex"]) (i + 1))) ∧
      ((List.range 2).flatMap fun i => (fun _ => ["/acme", "/globex"]) (i + 1)).length = 2 * 2 :=
  handles_pagination Bugcrowd.listingNet false false 2 2 2 (fun _ => ["/acme", "/globex"]) []
    (by decide) (by decide)
    (fun _ _ _ _ => ⟨⟨200, { totalPages := 2, programUrls := ["/acme", "/globex"] }⟩, rfl,
      by decide, rfl, fun _ => rfl⟩)
    (fun _ _ _ => rfl)

/-- C12 (the code at the failing input): a listing of two programs and
`concurrency = 2`, on HackerOne (`acme` and `globex`, keyword `all`) and on
Bugcrowd (`/acme` and `/globex`, keyword `url`).  The caller sends both handles
and closes the channel, worker 0 receives the first handle and worker 1 the
second, and each issues its request.  In the first run worker 0 reads
`programs` and assigns before worker 1 reads: both entries are returned.  In
the second run both workers read `programs`, still empty, before either
assigns: the assignment of worker 1 overwrites that of worker 0, and the
returned slice holds the entry of `globex` only, one entry for two handles.
The third run is the second one on Bugcrowd. -/
theorem overlapping_appends_lose_entry :
    Hackerone.GetAllProgramsScope Hackerone.twoProgramsNet 1
        [.main, .main, .main, .worker 0, .worker 1, .worker 0, .worker 1,
          .worker 0, .worker 0, .worker 1, .worker 1, .worker 0, .worker 1]
        false false false "all" false 2
      = some (.ok
          ["https://api.hackerone.com/v1/hackers/programs",
            "https://api.hackerone.com/v1/hackers/programs/acme",
            "https://api.hackerone.com/v1/hackers/programs/globex"]
          [⟨"https://hackerone.com/acme", []⟩, ⟨"https://hackerone.com/globex", []⟩]) ∧
    Hackerone.GetAllProgramsScope Hackerone.twoProgramsNet 1
        [.main, .main, .main, .worker 0, .worker 1, .worker 0, .worker 1,
          .worker 0, .worker 1, .worker 0, .worker 1, .worker 0, .worker 1]
        false false false "all" false 2
      = some (.ok
          ["https://api.hackerone.com/v1/hackers/programs",
            "https://api.hackerone.com/v1/hackers/programs/acme",
            "https://api.hackerone.com/v1/hackers/programs/globex"]
          [⟨"https://hackerone.com/globex", []⟩]) ∧
    Bugcrowd.GetAllProgramsScope Bugcrowd.twoProgramsListingNet 1
        [.main, .main, .main, .worker 0, .worker 1, .worker 0, .worker 1,
          .worker 0, .worker 1, .worker 0, .worker 1, .worker 0, .worker 1]
        false false "url" 2
      = some (.ok
          [Bugcrowd.pageURL false false 1, "https://bugcrowd.com/acme/target_groups",
            "https://bugcrowd.com/globex/target_groups"]
          [⟨"https://bugcrowd.com/globex", []⟩]) := by
  decide

/-- The empty string is the stop signal of a worker: a HackerOne listing whose
first entry has no handle gives the handles `""` and `acme`; with one worker
the worker stops at the empty string, and the run returns an empty slice
without a request for `acme`. -/
theorem empty_handle_stops_worker :
    Hackerone.getProgramHandles Hackerone.emptyHandleNet 1 [] false false false
      = some (.ok ["https://api.hackerone.com/v1/hackers/programs"] ["", "acme"]) ∧
    Hackerone.GetAllProgramsScope Hackerone.emptyHandleNet 1
        [.main, .worker 0, .main, .main] false false false "all" false 1
      = some (.ok ["https://api.hackerone.com/v1/hackers/programs"] []) := by
  decide
